import Mathlib

/-!
Verification of the cgraph2dot core: the DOT-text scanners of
`dot2interactive.py` and `tests/dotdiff.py`, the node classifier, the
graph comparator and the comparator CLI, modelled shallowly over lists of
characters.  The two regular expressions used by the sources,
`"([^"]+)"\s*\[label="([^"]+)"\]` and `"([^"]+)"\s*->\s*"([^"]+)"`, are
deterministic (no backtracking can change a match), so they are embedded
as direct character-list matchers; `re.finditer` is embedded as a
left-to-right scan that emits non-overlapping matches and otherwise
advances one character.
-/

namespace Cgraph

/-- Strings are modelled as lists of characters. -/
abbrev Str := List Char

/-- The double-quote character. -/
def qc : Char := Char.ofNat 34

/-- ASCII whitespace, the characters matched by the regex class `\s`. -/
def isPySpace (c : Char) : Bool :=
  c = ' ' || c = '\t' || c = '\n' || c = '\r' || c = '\x0b' || c = '\x0c'

/-- Split off the maximal prefix of characters other than a double quote
(the greedy `[^"]+` repetition, together with the character that stops it). -/
def takeNonQuote : Str → Str × Str
  | [] => ([], [])
  | c :: cs =>
    if c = qc then ([], c :: cs)
    else
      let p := takeNonQuote cs
      (c :: p.1, p.2)

/-- Match a literal character sequence, returning the remainder. -/
def expects : Str → Str → Option Str
  | [], s => some s
  | _ :: _, [] => none
  | c :: cs, d :: ds => if c = d then expects cs ds else none

/-- The greedy `\s*`. -/
def dropSpaces (s : Str) : Str := s.dropWhile isPySpace

/-- Match the regex fragment `"([^"]+)"` at the start of the input: an
opening quote, a nonempty run of non-quote characters, a closing quote.
On success, return the capture and the remainder. -/
def matchQuoted (s : Str) : Option (Str × Str) :=
  match s with
  | [] => none
  | c :: cs =>
    if c = qc then
      match takeNonQuote cs with
      | ([], _) => none
      | (_, []) => none
      | (cap, r0 :: r1) => if r0 = qc then some (cap, r1) else none
    else none

/-- The literal `[label="` of the node pattern. -/
def labelLit : Str := ['[', 'l', 'a', 'b', 'e', 'l', '=', qc]

/-- Match the node pattern `"([^"]+)"\s*\[label="([^"]+)"\]` at the start
of the input; on success return the two captures and the remainder. -/
def matchNodeAt (s : Str) : Option ((Str × Str) × Str) :=
  match matchQuoted s with
  | none => none
  | some (i, r1) =>
    match expects labelLit (dropSpaces r1) with
    | none => none
    | some r2 =>
      match takeNonQuote r2 with
      | ([], _) => none
      | (cap, r0 :: rr :: r4) =>
        if r0 = qc ∧ rr = ']' then some ((i, cap), r4) else none
      | (_, _) => none

/-- Match the edge pattern `"([^"]+)"\s*->\s*"([^"]+)"` at the start of
the input; on success return the two captures and the remainder. -/
def matchEdgeAt (s : Str) : Option ((Str × Str) × Str) :=
  match matchQuoted s with
  | none => none
  | some (a, r1) =>
    match expects ['-', '>'] (dropSpaces r1) with
    | none => none
    | some r2 =>
      match matchQuoted (dropSpaces r2) with
      | none => none
      | some (b, r3) => some ((a, b), r3)

/-- Fuelled left-to-right scan for the node pattern; one unit of fuel is
spent per step, and every step consumes at least one character, so fuel
equal to the length of the input suffices. -/
def finditerNodeF : Nat → Str → List (Str × Str)
  | 0, _ => []
  | _ + 1, [] => []
  | fuel + 1, c :: cs =>
    match matchNodeAt (c :: cs) with
    | none => finditerNodeF fuel cs
    | some (cap, rest) => cap :: finditerNodeF fuel rest

/-- Fuelled left-to-right scan for the edge pattern. -/
def finditerEdgeF : Nat → Str → List (Str × Str)
  | 0, _ => []
  | _ + 1, [] => []
  | fuel + 1, c :: cs =>
    match matchEdgeAt (c :: cs) with
    | none => finditerEdgeF fuel cs
    | some (cap, rest) => cap :: finditerEdgeF fuel rest

/-- All matches of the node pattern, in input order:
`re.finditer(node_pattern, content)`. -/
def finditerNode (s : Str) : List (Str × Str) := finditerNodeF s.length s

/-- All matches of the edge pattern, in input order:
`re.finditer(edge_pattern, content)`. -/
def finditerEdge (s : Str) : List (Str × Str) := finditerEdgeF s.length s

/-! Basic structure of the matchers. -/

theorem takeNonQuote_append_eq (s : Str) :
    (takeNonQuote s).1 ++ (takeNonQuote s).2 = s := by
  induction s with
  | nil => rfl
  | cons c cs ih =>
    by_cases h : c = qc <;> simp [takeNonQuote, h, ih]

theorem takeNonQuote_fst_noquote (s : Str) : ∀ c ∈ (takeNonQuote s).1, c ≠ qc := by
  induction s with
  | nil => intro c hc; simp [takeNonQuote] at hc
  | cons c cs ih =>
    intro d hd
    by_cases h : c = qc
    · simp [takeNonQuote, h] at hd
    · simp [takeNonQuote, h] at hd
      rcases hd with hd | hd
      · simpa [hd] using h
      · exact ih d hd

theorem takeNonQuote_spec (a b : Str) (ha : ∀ c ∈ a, c ≠ qc) :
    takeNonQuote (a ++ qc :: b) = (a, qc :: b) := by
  induction a with
  | nil => simp [takeNonQuote]
  | cons c cs ih =>
    have hc : c ≠ qc := ha c (by simp)
    have ih' := ih (fun d hd => ha d (by simp [hd]))
    simp [takeNonQuote, hc, ih']

theorem takeNonQuote_all (a : Str) (ha : ∀ c ∈ a, c ≠ qc) :
    takeNonQuote a = (a, []) := by
  induction a with
  | nil => rfl
  | cons c cs ih =>
    have hc : c ≠ qc := ha c (by simp)
    have ih' := ih (fun d hd => ha d (by simp [hd]))
    simp [takeNonQuote, hc, ih']

theorem expects_eq_some_iff (lit s r : Str) :
    expects lit s = some r ↔ s = lit ++ r := by
  induction lit generalizing s with
  | nil => simp [expects]
  | cons c cs ih =>
    cases s with
    | nil => simp [expects]
    | cons d ds =>
      by_cases h : c = d
      · subst h; simp [expects, ih]
      · simp [expects, h, Ne.symm h]

theorem matchQuoted_some (s cap r : Str) (h : matchQuoted s = some (cap, r)) :
    s = qc :: cap ++ qc :: r ∧ cap ≠ [] ∧ ∀ c ∈ cap, c ≠ qc := by
  cases s with
  | nil => simp [matchQuoted] at h
  | cons c cs =>
    by_cases hc : c = qc
    · subst hc
      have htk := takeNonQuote_append_eq cs
      have hnq := takeNonQuote_fst_noquote cs
      simp only [matchQuoted, if_pos rfl] at h
      rcases he : takeNonQuote cs with ⟨p1, p2⟩
      rw [he] at h htk hnq
      rcases p1 with _ | ⟨x, xs⟩
      · simp at h
      · rcases p2 with _ | ⟨r0, r1⟩
        · simp at h
        · by_cases hr : r0 = qc
          · subst hr
            simp at h
            obtain ⟨hcap, hr1⟩ := h
            subst hcap; subst hr1
            exact ⟨by simp [← htk], by simp, hnq⟩
          · simp [hr] at h
    · simp [matchQuoted, hc] at h

theorem matchQuoted_build (cap r : Str) (hne : cap ≠ []) (hq : ∀ c ∈ cap, c ≠ qc) :
    matchQuoted (qc :: cap ++ qc :: r) = some (cap, r) := by
  have hspec := takeNonQuote_spec cap r hq
  cases cap with
  | nil => exact absurd rfl hne
  | cons x xs =>
    simp only [matchQuoted, List.cons_append, if_pos rfl]
    rw [List.cons_append] at hspec
    rw [hspec]
    simp

theorem matchQuoted_none_of_noclose (a : Str) (ha : ∀ c ∈ a, c ≠ qc) :
    matchQuoted (qc :: a) = none := by
  have htk := takeNonQuote_all a ha
  simp only [matchQuoted, if_pos rfl]
  rw [htk]
  cases a <;> rfl

theorem matchQuoted_none_of_head (c : Char) (cs : Str) (hc : c ≠ qc) :
    matchQuoted (c :: cs) = none := by
  simp [matchQuoted, hc]

theorem dropSpaces_length_le (s : Str) : (dropSpaces s).length ≤ s.length := by
  induction s with
  | nil => simp [dropSpaces]
  | cons c cs ih =>
    by_cases h : isPySpace c
    · unfold dropSpaces at ih ⊢
      rw [List.dropWhile_cons_of_pos h]
      simpa using Nat.le_succ_of_le ih
    · unfold dropSpaces
      rw [List.dropWhile_cons_of_neg (by simpa using h)]

theorem dropSpaces_cons_of_space (c : Char) (s : Str) (h : isPySpace c = true) :
    dropSpaces (c :: s) = dropSpaces s := by
  unfold dropSpaces
  rw [List.dropWhile_cons_of_pos h]

theorem dropSpaces_cons_of_nonspace (c : Char) (s : Str) (h : isPySpace c = false) :
    dropSpaces (c :: s) = c :: s := by
  unfold dropSpaces
  rw [List.dropWhile_cons_of_neg (by simp [h])]

theorem matchQuoted_length (s cap r : Str) (h : matchQuoted s = some (cap, r)) :
    r.length < s.length := by
  obtain ⟨hs, -, -⟩ := matchQuoted_some s cap r h
  subst hs
  simp
  omega

theorem matchNodeAt_length (s : Str) (cap : Str × Str) (rest : Str)
    (h : matchNodeAt s = some (cap, rest)) : rest.length < s.length := by
  unfold matchNodeAt at h
  rcases hq : matchQuoted s with - | ⟨i, r1⟩ <;> rw [hq] at h <;> dsimp only at h
  · simp at h
  · have h1 : r1.length < s.length := matchQuoted_length s i r1 hq
    rcases hx : expects labelLit (dropSpaces r1) with - | r2 <;> rw [hx] at h <;> dsimp only at h
    · simp at h
    · have h2 : (dropSpaces r1).length = labelLit.length + r2.length := by
        rw [(expects_eq_some_iff _ _ _).mp hx]; simp
      have h2' : (dropSpaces r1).length ≤ r1.length := dropSpaces_length_le r1
      rcases ht : takeNonQuote r2 with ⟨p1, p2⟩
      rw [ht] at h
      have h3 : p1 ++ p2 = r2 := by
        have := takeNonQuote_append_eq r2; rw [ht] at this; exact this
      rcases p1 with - | ⟨x, xs⟩
      · simp at h
      · rcases p2 with - | ⟨r0, p2'⟩
        · simp at h
        · rcases p2' with - | ⟨rr, r4⟩
          · simp at h
          · dsimp only at h
            by_cases hcond : r0 = qc ∧ rr = ']'
            · rw [if_pos hcond] at h
              simp only [Option.some.injEq, Prod.mk.injEq] at h
              have hr4 : rest = r4 := h.2.symm
              subst hr4
              have h4 : (x :: xs).length + (r0 :: rr :: rest).length = r2.length := by
                rw [← h3]; simp; omega
              simp [labelLit] at h2
              simp at h4
              omega
            · rw [if_neg hcond] at h; simp at h

theorem matchEdgeAt_length (s : Str) (cap : Str × Str) (rest : Str)
    (h : matchEdgeAt s = some (cap, rest)) : rest.length < s.length := by
  unfold matchEdgeAt at h
  rcases hq : matchQuoted s with - | ⟨a, r1⟩ <;> rw [hq] at h <;> dsimp only at h
  · simp at h
  · have h1 : r1.length < s.length := matchQuoted_length s a r1 hq
    rcases hx : expects ['-', '>'] (dropSpaces r1) with - | r2 <;> rw [hx] at h <;> dsimp only at h
    · simp at h
    · have h2 : (dropSpaces r1).length = 2 + r2.length := by
        rw [(expects_eq_some_iff _ _ _).mp hx]; simp; omega
      have h2' : (dropSpaces r1).length ≤ r1.length := dropSpaces_length_le r1
      rcases hq2 : matchQuoted (dropSpaces r2) with - | ⟨b, r3⟩ <;> rw [hq2] at h <;> dsimp only at h
      · simp at h
      · have h3 : r3.length < (dropSpaces r2).length := matchQuoted_length _ b r3 hq2
        have h3' : (dropSpaces r2).length ≤ r2.length := dropSpaces_length_le r2
        simp only [Option.some.injEq, Prod.mk.injEq] at h
        have hr : rest = r3 := h.2.symm
        subst hr
        omega

/-! The fuelled scanners do not depend on the amount of fuel, provided it
is at least the length of the input. -/

theorem finditerNodeF_nilF : ∀ f, finditerNodeF f [] = [] := by
  intro f; cases f <;> rfl

theorem finditerEdgeF_nilF : ∀ f, finditerEdgeF f [] = [] := by
  intro f; cases f <;> rfl

theorem finditerNodeF_congr : ∀ (f1 : Nat) (f2 : Nat) (s : Str),
    s.length ≤ f1 → s.length ≤ f2 → finditerNodeF f1 s = finditerNodeF f2 s := by
  intro f1
  induction f1 with
  | zero =>
    intro f2 s h1 _
    have : s = [] := List.eq_nil_of_length_eq_zero (Nat.le_zero.mp h1)
    subst this
    rw [finditerNodeF_nilF, finditerNodeF_nilF]
  | succ f1 ih =>
    intro f2 s h1 h2
    cases s with
    | nil => rw [finditerNodeF_nilF, finditerNodeF_nilF]
    | cons c cs =>
      cases f2 with
      | zero => simp at h2
      | succ f2 =>
        simp only [finditerNodeF]
        rcases hm : matchNodeAt (c :: cs) with - | ⟨cap, rest⟩
        · exact ih f2 cs (by simpa using h1) (by simpa using h2)
        · have hlt := matchNodeAt_length _ _ _ hm
          simp at hlt h1 h2
          exact congrArg (cap :: ·) (ih f2 rest (by omega) (by omega))

theorem finditerEdgeF_congr : ∀ (f1 : Nat) (f2 : Nat) (s : Str),
    s.length ≤ f1 → s.length ≤ f2 → finditerEdgeF f1 s = finditerEdgeF f2 s := by
  intro f1
  induction f1 with
  | zero =>
    intro f2 s h1 _
    have : s = [] := List.eq_nil_of_length_eq_zero (Nat.le_zero.mp h1)
    subst this
    rw [finditerEdgeF_nilF, finditerEdgeF_nilF]
  | succ f1 ih =>
    intro f2 s h1 h2
    cases s with
    | nil => rw [finditerEdgeF_nilF, finditerEdgeF_nilF]
    | cons c cs =>
      cases f2 with
      | zero => simp at h2
      | succ f2 =>
        simp only [finditerEdgeF]
        rcases hm : matchEdgeAt (c :: cs) with - | ⟨cap, rest⟩
        · exact ih f2 cs (by simpa using h1) (by simpa using h2)
        · have hlt := matchEdgeAt_length _ _ _ hm
          simp at hlt h1 h2
          exact congrArg (cap :: ·) (ih f2 rest (by omega) (by omega))

/-! Step equations for the scanners. -/

theorem finditerNode_nil : finditerNode [] = [] := rfl

theorem finditerEdge_nil : finditerEdge [] = [] := rfl

theorem finditerNode_cons_none {c : Char} {cs : Str}
    (h : matchNodeAt (c :: cs) = none) :
    finditerNode (c :: cs) = finditerNode cs := by
  unfold finditerNode
  simp only [List.length_cons, finditerNodeF, h]

theorem finditerNode_cons_some {c : Char} {cs : Str} {cap : Str × Str} {rest : Str}
    (h : matchNodeAt (c :: cs) = some (cap, rest)) :
    finditerNode (c :: cs) = cap :: finditerNode rest := by
  have hlt := matchNodeAt_length _ _ _ h
  unfold finditerNode
  simp only [List.length_cons, finditerNodeF, h]
  rw [finditerNodeF_congr cs.length rest.length rest (by simp at hlt; omega) le_rfl]

theorem finditerEdge_cons_none {c : Char} {cs : Str}
    (h : matchEdgeAt (c :: cs) = none) :
    finditerEdge (c :: cs) = finditerEdge cs := by
  unfold finditerEdge
  simp only [List.length_cons, finditerEdgeF, h]

theorem finditerEdge_cons_some {c : Char} {cs : Str} {cap : Str × Str} {rest : Str}
    (h : matchEdgeAt (c :: cs) = some (cap, rest)) :
    finditerEdge (c :: cs) = cap :: finditerEdge rest := by
  have hlt := matchEdgeAt_length _ _ _ h
  unfold finditerEdge
  simp only [List.length_cons, finditerEdgeF, h]
  rw [finditerEdgeF_congr cs.length rest.length rest (by simp at hlt; omega) le_rfl]

/-! Skipping: positions that do not start with a quote can never start a
match of either pattern, so they are passed over one character at a time. -/

theorem matchNodeAt_none_of_head (c : Char) (cs : Str) (hc : c ≠ qc) :
    matchNodeAt (c :: cs) = none := by
  unfold matchNodeAt
  rw [matchQuoted_none_of_head c cs hc]

theorem matchEdgeAt_none_of_head (c : Char) (cs : Str) (hc : c ≠ qc) :
    matchEdgeAt (c :: cs) = none := by
  unfold matchEdgeAt
  rw [matchQuoted_none_of_head c cs hc]

theorem finditerNode_append_noquote (t s : Str) (ht : ∀ c ∈ t, c ≠ qc) :
    finditerNode (t ++ s) = finditerNode s := by
  induction t with
  | nil => simp
  | cons c cs ih =>
    have hc := ht c (by simp)
    rw [List.cons_append, finditerNode_cons_none (matchNodeAt_none_of_head _ _ hc)]
    exact ih (fun d hd => ht d (by simp [hd]))

theorem finditerEdge_append_noquote (t s : Str) (ht : ∀ c ∈ t, c ≠ qc) :
    finditerEdge (t ++ s) = finditerEdge s := by
  induction t with
  | nil => simp
  | cons c cs ih =>
    have hc := ht c (by simp)
    rw [List.cons_append, finditerEdge_cons_none (matchEdgeAt_none_of_head _ _ hc)]
    exact ih (fun d hd => ht d (by simp [hd]))

theorem finditerNode_noquote (t : Str) (ht : ∀ c ∈ t, c ≠ qc) :
    finditerNode t = [] := by
  have h := finditerNode_append_noquote t [] ht
  simpa using h

theorem finditerEdge_noquote (t : Str) (ht : ∀ c ∈ t, c ≠ qc) :
    finditerEdge t = [] := by
  have h := finditerEdge_append_noquote t [] ht
  simpa using h

/-! The matchers succeed on canonically rendered declarations. -/

/-- The text of a node declaration line. -/
def renderNodeDecl (i l : Str) : Str :=
  qc :: (i ++ (qc :: ' ' :: (labelLit ++ (l ++ (qc :: ']' :: [])))))

/-- The text of an edge declaration line. -/
def renderEdgeDecl (a b : Str) : Str :=
  qc :: (a ++ (qc :: ' ' :: '-' :: '>' :: ' ' :: qc :: (b ++ (qc :: []))))

theorem matchNodeAt_build (i l s : Str) (hi : i ≠ []) (hiq : ∀ c ∈ i, c ≠ qc)
    (hl : l ≠ []) (hlq : ∀ c ∈ l, c ≠ qc) :
    matchNodeAt (renderNodeDecl i l ++ s) = some ((i, l), s) := by
  have hmq : matchQuoted (qc :: i ++ qc :: (' ' :: (labelLit ++ (l ++ (qc :: ']' :: s))))) =
      some (i, ' ' :: (labelLit ++ (l ++ (qc :: ']' :: s)))) :=
    matchQuoted_build i _ hi hiq
  have hshape : renderNodeDecl i l ++ s =
      qc :: i ++ qc :: (' ' :: (labelLit ++ (l ++ (qc :: ']' :: s)))) := by
    simp [renderNodeDecl]
  rw [hshape]
  unfold matchNodeAt
  rw [hmq]
  dsimp only
  have hds : dropSpaces (' ' :: (labelLit ++ (l ++ (qc :: ']' :: s)))) =
      labelLit ++ (l ++ (qc :: ']' :: s)) := by
    rw [dropSpaces_cons_of_space _ _ (by decide)]
    exact dropSpaces_cons_of_nonspace '[' _ (by decide)
  rw [hds]
  rw [(expects_eq_some_iff labelLit _ (l ++ (qc :: ']' :: s))).mpr rfl]
  dsimp only
  have htk : takeNonQuote (l ++ (qc :: ']' :: s)) = (l, qc :: ']' :: s) :=
    takeNonQuote_spec l (']' :: s) hlq
  rw [htk]
  obtain ⟨x, xs, hx⟩ := List.exists_cons_of_ne_nil hl
  subst hx
  simp

theorem matchEdgeAt_build (a b s : Str) (ha : a ≠ []) (haq : ∀ c ∈ a, c ≠ qc)
    (hb : b ≠ []) (hbq : ∀ c ∈ b, c ≠ qc) :
    matchEdgeAt (renderEdgeDecl a b ++ s) = some ((a, b), s) := by
  have hmq : matchQuoted (qc :: a ++ qc :: (' ' :: '-' :: '>' :: ' ' :: qc :: (b ++ (qc :: s)))) =
      some (a, ' ' :: '-' :: '>' :: ' ' :: qc :: (b ++ (qc :: s))) :=
    matchQuoted_build a _ ha haq
  have hshape : renderEdgeDecl a b ++ s =
      qc :: a ++ qc :: (' ' :: '-' :: '>' :: ' ' :: qc :: (b ++ (qc :: s))) := by
    simp [renderEdgeDecl]
  rw [hshape]
  unfold matchEdgeAt
  rw [hmq]
  dsimp only
  have hds : dropSpaces (' ' :: '-' :: '>' :: ' ' :: qc :: (b ++ (qc :: s))) =
      '-' :: '>' :: ' ' :: qc :: (b ++ (qc :: s)) := by
    rw [dropSpaces_cons_of_space _ _ (by decide)]
    exact dropSpaces_cons_of_nonspace _ _ (by decide)
  rw [hds]
  have hexp : expects ['-', '>'] ('-' :: '>' :: ' ' :: qc :: (b ++ (qc :: s))) =
      some (' ' :: qc :: (b ++ (qc :: s))) :=
    (expects_eq_some_iff _ _ _).mpr rfl
  rw [hexp]
  dsimp only
  have hds2 : dropSpaces (' ' :: qc :: (b ++ (qc :: s))) = qc :: (b ++ (qc :: s)) := by
    rw [dropSpaces_cons_of_space _ _ (by decide)]
    exact dropSpaces_cons_of_nonspace _ _ (by decide)
  rw [hds2]
  have hmq2 : matchQuoted (qc :: (b ++ (qc :: s))) = some (b, s) := by
    have := matchQuoted_build b s hb hbq
    simpa using this
  rw [hmq2]

/-!  The model of `dot2interactive.py`'s `parse_dot_file`. -/

namespace Interactive

/-- The fixed interaction hint appended (after a newline) to every node
label to form its tooltip. -/
def titleHint : Str := '\n' :: "Double-click to collapse/expand children".data

/-- A renderable node, as appended to the `nodes` list. -/
structure VNode where
  id : Str
  label : Str
  group : Nat
  title : Str
deriving DecidableEq

/-- A renderable edge, as appended to the `edges` list; `src`/`dst` model
the keys `from`/`to`. -/
structure VEdge where
  src : Str
  dst : Str
  arrows : Str
deriving DecidableEq

/-- The node categorisation of `parse_dot_file`: module functions (1),
system/runtime functions (2), entry points and math (3), user code (4). -/
def classify (i : Str) : Nat :=
  if "__mod_".data.isPrefixOf i then 1
  else if "_gfortran_".data.isPrefixOf i ∨
      i ∈ ["malloc".data, "free".data, "memset".data, "memmove".data, "realloc".data] then 2
  else if i ∈ ["main".data, "MAIN__".data, "sqrt".data, "lround".data, "copysign".data] then 3
  else 4

/-- The node-accumulation loop: the first occurrence of an id creates its
node, later re-declarations of an id already in `node_set` are skipped. -/
def buildNodes : List (Str × Str) → List Str → List VNode
  | [], _ => []
  | m :: ms, seen =>
    if m.1 ∈ seen then buildNodes ms seen
    else
      { id := m.1, label := m.2, group := classify m.1,
        title := m.2 ++ titleHint } :: buildNodes ms (m.1 :: seen)

/-- The edge-accumulation loop: every match becomes an edge annotated with
the arrow marker. -/
def buildEdges (ms : List (Str × Str)) : List VEdge :=
  ms.map fun m => { src := m.1, dst := m.2, arrows := "to".data }

/-- Model of `set.add` on a value of the calls map. -/
def addTarget (v : List Str) (t : Str) : List Str :=
  if t ∈ v then v else v ++ [t]

/-- Model of `if source in calls_map: calls_map[source].add(target)`. -/
def addCall (calls : List (Str × List Str)) (s t : Str) : List (Str × List Str) :=
  calls.map fun kv => if kv.1 = s then (kv.1, addTarget kv.2 t) else kv

/-- The calls-map accumulation over all edge matches. -/
def buildCalls : List (Str × List Str) → List (Str × Str) → List (Str × List Str)
  | calls, [] => calls
  | calls, m :: ms => buildCalls (addCall calls m.1 m.2) ms

/-- Model of `parse_dot_file` of `dot2interactive.py`: the nodes, edges and calls
map extracted from the content of the file. -/
def parse_dot_file (content : Str) :
    List VNode × List VEdge × List (Str × List Str) :=
  let nodes := buildNodes (finditerNode content) []
  (nodes, buildEdges (finditerEdge content),
    buildCalls (nodes.map fun n => (n.id, [])) (finditerEdge content))

end Interactive

/-!  The model of `tests/dotdiff.py`. -/

namespace Dotdiff

/-- String comparison by character code, as in Python. -/
def strCmp : Str → Str → Ordering
  | [], [] => .eq
  | [], _ :: _ => .lt
  | _ :: _, [] => .gt
  | a :: as, b :: bs => if a < b then .lt else if b < a then .gt else strCmp as bs

/-- Lexicographic comparison of pairs of strings: Python tuple comparison,
the order used by `sorted` on the node and edge tuples. -/
def pairCmp (p q : Str × Str) : Ordering :=
  match strCmp p.1 q.1 with
  | .eq => strCmp p.2 q.2
  | o => o

/-- The total order underlying `sorted(...)`. -/
def pairLe (p q : Str × Str) : Prop := pairCmp p q ≠ .gt

instance (p q : Str × Str) : Decidable (pairLe p q) := by
  unfold pairLe; infer_instance

/-- A Python set of tuples, materialised canonically: duplicates removed
and elements listed in sorted order. -/
def canon (l : List (Str × Str)) : List (Str × Str) :=
  l.dedup.insertionSort pairLe

/-- The parsed form of a `.dot` file in `dotdiff.py`: the node set and the
edge set. -/
structure Graph where
  nodes : List (Str × Str)
  edges : List (Str × Str)
deriving DecidableEq

/-- Model of `parse_dot_file` of `tests/dotdiff.py`. -/
def parse_dot_file (content : Str) : Graph :=
  { nodes := canon (finditerNode content), edges := canon (finditerEdge content) }

/-- Model of `sorted(setA - setB)` for sets denoted by lists. -/
def onlyIn (a b : List (Str × Str)) : List (Str × Str) :=
  canon (a.filter fun x => decide (x ∉ b))

/-- The decimal rendering of a count. -/
def natStr (n : Nat) : Str := (toString n).data

/-- The line `"  - id [label=lbl]"` (sign `'-'` for the reference file,
`'+'` for the generated file). -/
def nodeDiffLine (sign : Char) (m : Str × Str) : Str :=
  ' ' :: ' ' :: sign :: ' ' :: (m.1 ++ (" [label=".data ++ (m.2 ++ [']'])))

/-- The line `"  - from -> to"`. -/
def edgeDiffLine (sign : Char) (m : Str × Str) : Str :=
  ' ' :: ' ' :: sign :: ' ' :: (m.1 ++ (" -> ".data ++ m.2))

/-- The count line `"  Reference: N nodes, M edges"` (or `Generated`). -/
def countLine (caption : Str) (g : Graph) : Str :=
  caption ++ (natStr (canon g.nodes).length ++
    (" nodes, ".data ++ (natStr (canon g.edges).length ++ " edges".data)))

/-- The `differences` list accumulated by `compare_dot_files`: the four
set differences, each rendered (when non-empty) as a header line followed
by its sorted members. -/
def differencesOf (g1 g2 : Graph) : List Str :=
  (if (onlyIn g1.nodes g2.nodes).isEmpty then [] else
    "Nodes only in reference file:".data :: (onlyIn g1.nodes g2.nodes).map (nodeDiffLine '-')) ++
  (if (onlyIn g2.nodes g1.nodes).isEmpty then [] else
    "Nodes only in generated file:".data :: (onlyIn g2.nodes g1.nodes).map (nodeDiffLine '+')) ++
  (if (onlyIn g1.edges g2.edges).isEmpty then [] else
    "Edges only in reference file:".data :: (onlyIn g1.edges g2.edges).map (edgeDiffLine '-')) ++
  (if (onlyIn g2.edges g1.edges).isEmpty then [] else
    "Edges only in generated file:".data :: (onlyIn g2.edges g1.edges).map (edgeDiffLine '+'))

/-- Model of `compare_dot_files` of `tests/dotdiff.py`, applied to the two parsed
graphs: the boolean verdict and the summary, modelled as the list of lines
of the printed text. -/
def compareGraphs (g1 g2 : Graph) : Bool × List Str :=
  ((differencesOf g1 g2).isEmpty,
    if (differencesOf g1 g2).isEmpty then ["Graphs are structurally identical".data]
    else
      ("Graphs differ:".data ::
        countLine "  Reference: ".data g1 ::
        countLine "  Generated: ".data g2 :: []) ++
      (if (differencesOf g1 g2).isEmpty then []
       else ([] : Str) :: "Differences:".data :: differencesOf g1 g2))

/-- Model of `compare_dot_files` on the contents of the two files. -/
def compare_dot_files (c1 c2 : Str) : Bool × List Str :=
  compareGraphs (parse_dot_file c1) (parse_dot_file c2)

/-- The modelled file system of the comparator CLI: paths associated to
contents; a path exists iff it has an entry. -/
def fsLookup (fs : List (Str × Str)) (p : Str) : Option Str :=
  (fs.find? fun kv => decide (kv.1 = p)).map Prod.snd

/-- Model of `main` of `tests/dotdiff.py` over a modelled file system and argument
vector (`argv.head` is the program name): the exit code and the printed
lines. -/
def main (fs : List (Str × Str)) (argv : List Str) : Nat × List Str :=
  match argv with
  | [_, reference_file, generated_file] =>
    match fsLookup fs reference_file with
    | none => (1, ["Error: Reference file not found: ".data ++ reference_file])
    | some c1 =>
      match fsLookup fs generated_file with
      | none => (1, ["Error: Generated file not found: ".data ++ generated_file])
      | some c2 =>
        let r := compare_dot_files c1 c2
        (if r.1 then 0 else 1, r.2)
  | _ =>
    (1, ["Usage: ".data ++ (argv.headD [] ++ " <reference.dot> <generated.dot>".data)])

/-! The comparison used by `sorted` is a decidable total order. -/

theorem strCmp_eq_iff (a : Str) : ∀ b, strCmp a b = .eq ↔ a = b := by
  induction a with
  | nil => intro b; cases b <;> simp [strCmp]
  | cons x xs ih =>
    intro b
    cases b with
    | nil => simp [strCmp]
    | cons y ys =>
      rcases lt_trichotomy x y with h | h | h
      · have he : strCmp (x :: xs) (y :: ys) = .lt := by simp [strCmp, h]
        simp [he, ne_of_lt h]
      · subst h
        have he : strCmp (x :: xs) (x :: ys) = strCmp xs ys := by simp [strCmp]
        simp [he, ih ys]
      · have he : strCmp (x :: xs) (y :: ys) = .gt := by simp [strCmp, h, lt_asymm h]
        simp [he, ne_of_gt h]

theorem strCmp_swap (a : Str) : ∀ b, strCmp b a = (strCmp a b).swap := by
  induction a with
  | nil => intro b; cases b <;> simp [strCmp, Ordering.swap]
  | cons x xs ih =>
    intro b
    cases b with
    | nil => simp [strCmp, Ordering.swap]
    | cons y ys =>
      rcases lt_trichotomy x y with h | h | h
      · simp [strCmp, h, lt_asymm h, Ordering.swap]
      · subst h
        simp [strCmp, ih ys]
      · simp [strCmp, h, lt_asymm h, Ordering.swap]

theorem strCmp_lt_trans : ∀ a b c : Str,
    strCmp a b = .lt → strCmp b c = .lt → strCmp a c = .lt := by
  intro a
  induction a with
  | nil =>
    intro b c h1 h2
    cases b with
    | nil => simp [strCmp] at h1
    | cons y ys =>
      cases c with
      | nil => simp [strCmp] at h2
      | cons z zs => simp [strCmp]
  | cons x xs ih =>
    intro b c h1 h2
    cases b with
    | nil => simp [strCmp] at h1
    | cons y ys =>
      cases c with
      | nil => simp [strCmp] at h2
      | cons z zs =>
        rcases lt_trichotomy x y with hxy | hxy | hxy
        · rcases lt_trichotomy y z with hyz | hyz | hyz
          · simp [strCmp, lt_trans hxy hyz]
          · subst hyz; simp [strCmp, hxy]
          · simp [strCmp, hyz, lt_asymm hyz] at h2
        · subst hxy
          rcases lt_trichotomy x z with hyz | hyz | hyz
          · simp [strCmp, hyz]
          · subst hyz
            simp [strCmp] at h1 h2 ⊢
            exact ih ys zs h1 h2
          · simp [strCmp, hyz, lt_asymm hyz] at h2
        · simp [strCmp, hxy, lt_asymm hxy] at h1

theorem pairCmp_eq_iff (p q : Str × Str) : pairCmp p q = .eq ↔ p = q := by
  unfold pairCmp
  rcases h : strCmp p.1 q.1 with - | - | -
  · constructor
    · intro hh; simp at hh
    · intro hh
      rw [hh, (strCmp_eq_iff q.1 q.1).mpr rfl] at h
      simp at h
  · have h1 : p.1 = q.1 := (strCmp_eq_iff p.1 q.1).mp h
    constructor
    · intro hh
      have h2 : p.2 = q.2 := (strCmp_eq_iff p.2 q.2).mp hh
      exact Prod.ext h1 h2
    · intro hh; rw [hh]; exact (strCmp_eq_iff q.2 q.2).mpr rfl
  · constructor
    · intro hh; simp at hh
    · intro hh
      rw [hh, (strCmp_eq_iff q.1 q.1).mpr rfl] at h
      simp at h

theorem pairCmp_swap (p q : Str × Str) : pairCmp q p = (pairCmp p q).swap := by
  unfold pairCmp
  rw [strCmp_swap p.1 q.1, strCmp_swap p.2 q.2]
  rcases strCmp p.1 q.1 with - | - | - <;> simp [Ordering.swap]

theorem pairCmp_lt_trans (p q r : Str × Str)
    (h1 : pairCmp p q = .lt) (h2 : pairCmp q r = .lt) : pairCmp p r = .lt := by
  unfold pairCmp at h1 h2 ⊢
  rcases ha : strCmp p.1 q.1 with - | - | - <;> rw [ha] at h1
  case gt => simp at h1
  all_goals rcases hb : strCmp q.1 r.1 with - | - | - <;> rw [hb] at h2
  case lt.gt => simp at h2
  case eq.gt => simp at h2
  case lt.lt => rw [strCmp_lt_trans p.1 q.1 r.1 ha hb]
  case lt.eq =>
    have : q.1 = r.1 := (strCmp_eq_iff q.1 r.1).mp hb
    rw [← this, ha]
  case eq.lt =>
    have : p.1 = q.1 := (strCmp_eq_iff p.1 q.1).mp ha
    rw [this, hb]
  case eq.eq =>
    have hpq : p.1 = q.1 := (strCmp_eq_iff p.1 q.1).mp ha
    have hqr : q.1 = r.1 := (strCmp_eq_iff q.1 r.1).mp hb
    rw [hpq, hqr, (strCmp_eq_iff r.1 r.1).mpr rfl]
    exact strCmp_lt_trans p.2 q.2 r.2 h1 h2

instance : IsTotal (Str × Str) pairLe := by
  constructor
  intro p q
  by_cases h : pairCmp p q = .gt
  · right
    unfold pairLe
    rw [pairCmp_swap p q, h]
    simp [Ordering.swap]
  · left; exact h

instance : IsTrans (Str × Str) pairLe := by
  constructor
  intro p q r h1 h2
  unfold pairLe at h1 h2 ⊢
  rcases ha : pairCmp p q with - | - | -
  · rcases hb : pairCmp q r with - | - | -
    · rw [pairCmp_lt_trans p q r ha hb]; simp
    · have : q = r := (pairCmp_eq_iff q r).mp hb
      rw [← this, ha]; simp
    · exact absurd hb h2
  · have : p = q := (pairCmp_eq_iff p q).mp ha
    rw [this]; exact h2
  · exact absurd ha h1

instance : IsAntisymm (Str × Str) pairLe := by
  constructor
  intro p q h1 h2
  unfold pairLe at h1 h2
  rcases ha : pairCmp p q with - | - | -
  · exfalso
    apply h2
    rw [pairCmp_swap p q, ha]
    rfl
  · exact (pairCmp_eq_iff p q).mp ha
  · exact absurd ha h1

/-! Canonical set materialisation. -/

theorem canon_sorted (l : List (Str × Str)) : (canon l).Sorted pairLe :=
  List.sorted_insertionSort pairLe l.dedup

theorem canon_perm_dedup (l : List (Str × Str)) : (canon l).Perm l.dedup :=
  List.perm_insertionSort pairLe l.dedup

theorem mem_canon {x : Str × Str} {l : List (Str × Str)} : x ∈ canon l ↔ x ∈ l :=
  ((canon_perm_dedup l).mem_iff).trans List.mem_dedup

theorem canon_nodup (l : List (Str × Str)) : (canon l).Nodup :=
  ((canon_perm_dedup l).nodup_iff).mpr (List.nodup_dedup l)

theorem canon_eq_of_mem_iff {l1 l2 : List (Str × Str)}
    (h : ∀ x, x ∈ l1 ↔ x ∈ l2) : canon l1 = canon l2 := by
  apply List.eq_of_perm_of_sorted _ (canon_sorted l1) (canon_sorted l2)
  have hmid : l1.dedup.Perm l2.dedup := by
    rw [List.perm_ext_iff_of_nodup (List.nodup_dedup l1) (List.nodup_dedup l2)]
    intro a
    rw [List.mem_dedup, List.mem_dedup]
    exact h a
  exact ((canon_perm_dedup l1).trans hmid).trans (canon_perm_dedup l2).symm

theorem canon_eq_nil_iff {l : List (Str × Str)} : canon l = [] ↔ ∀ x, x ∉ l := by
  rw [List.eq_nil_iff_forall_not_mem]
  constructor
  · intro h x hx; exact h x (mem_canon.mpr hx)
  · intro h x hx; exact h x (mem_canon.mp hx)

theorem canon_length_card (l : List (Str × Str)) : (canon l).length = l.dedup.length :=
  (canon_perm_dedup l).length_eq

/-! The four set differences of the comparator. -/

theorem mem_onlyIn {x : Str × Str} {a b : List (Str × Str)} :
    x ∈ onlyIn a b ↔ x ∈ a ∧ x ∉ b := by
  unfold onlyIn
  rw [mem_canon, List.mem_filter]
  simp

theorem onlyIn_sorted (a b : List (Str × Str)) : (onlyIn a b).Sorted pairLe :=
  canon_sorted _

theorem onlyIn_nodup (a b : List (Str × Str)) : (onlyIn a b).Nodup :=
  canon_nodup _

theorem onlyIn_eq_nil_iff {a b : List (Str × Str)} :
    onlyIn a b = [] ↔ ∀ x ∈ a, x ∈ b := by
  unfold onlyIn
  rw [canon_eq_nil_iff]
  constructor
  · intro h x hx
    by_contra hb
    exact h x (List.mem_filter.mpr ⟨hx, by simpa using hb⟩)
  · intro h x hx
    rcases List.mem_filter.mp hx with ⟨hxa, hxb⟩
    simp at hxb
    exact hxb (h x hxa)

theorem onlyIn_self (a : List (Str × Str)) : onlyIn a a = [] :=
  onlyIn_eq_nil_iff.mpr (fun _ hx => hx)

/-! The comparator verdict. -/

theorem compareGraphs_verdict_diffs (g1 g2 : Graph) :
    (compareGraphs g1 g2).1 = true ↔
      (onlyIn g1.nodes g2.nodes = [] ∧ onlyIn g2.nodes g1.nodes = [] ∧
       onlyIn g1.edges g2.edges = [] ∧ onlyIn g2.edges g1.edges = []) := by
  show (differencesOf g1 g2).isEmpty = true ↔ _
  rw [List.isEmpty_iff]
  unfold differencesOf
  rw [List.append_eq_nil, List.append_eq_nil, List.append_eq_nil]
  constructor
  · intro ⟨⟨⟨h1, h2⟩, h3⟩, h4⟩
    refine ⟨?_, ?_, ?_, ?_⟩ <;> [skip; skip; skip; skip]
    · by_contra hne
      rw [if_neg (by simpa [List.isEmpty_iff] using hne)] at h1
      exact List.cons_ne_nil _ _ h1
    · by_contra hne
      rw [if_neg (by simpa [List.isEmpty_iff] using hne)] at h2
      exact List.cons_ne_nil _ _ h2
    · by_contra hne
      rw [if_neg (by simpa [List.isEmpty_iff] using hne)] at h3
      exact List.cons_ne_nil _ _ h3
    · by_contra hne
      rw [if_neg (by simpa [List.isEmpty_iff] using hne)] at h4
      exact List.cons_ne_nil _ _ h4
  · intro ⟨h1, h2, h3, h4⟩
    rw [if_pos (by simp [h1]), if_pos (by simp [h2]), if_pos (by simp [h3]),
      if_pos (by simp [h4])]
    simp

theorem compareGraphs_verdict (g1 g2 : Graph) :
    (compareGraphs g1 g2).1 = true ↔
      ((∀ x, x ∈ g1.nodes ↔ x ∈ g2.nodes) ∧ (∀ x, x ∈ g1.edges ↔ x ∈ g2.edges)) := by
  rw [compareGraphs_verdict_diffs]
  rw [onlyIn_eq_nil_iff, onlyIn_eq_nil_iff, onlyIn_eq_nil_iff, onlyIn_eq_nil_iff]
  constructor
  · intro ⟨h1, h2, h3, h4⟩
    exact ⟨fun x => ⟨h1 x, h2 x⟩, fun x => ⟨h3 x, h4 x⟩⟩
  · intro ⟨h1, h2⟩
    exact ⟨fun x hx => (h1 x).mp hx, fun x hx => (h1 x).mpr hx,
      fun x hx => (h2 x).mp hx, fun x hx => (h2 x).mpr hx⟩

theorem compareGraphs_equal_summary (g1 g2 : Graph)
    (h : (compareGraphs g1 g2).1 = true) :
    (compareGraphs g1 g2).2 = ["Graphs are structurally identical".data] := by
  have h' : (differencesOf g1 g2).isEmpty = true := h
  show (if (differencesOf g1 g2).isEmpty then _ else _) = _
  rw [if_pos h']

end Dotdiff

/-! A structured model of input files built from declaration lines and
junk lines, used to settle order-independence of extraction.  A file is a
list of lines joined by newlines; a line is a node declaration, an edge
declaration or arbitrary other text. -/

/-- A line of a structured input file. -/
inductive DLine where
  | nodeDecl (i l : Str) : DLine
  | edgeDecl (a b : Str) : DLine
  | junk (t : Str) : DLine
deriving DecidableEq

/-- The text of a structured line. -/
def DLine.render : DLine → Str
  | .nodeDecl i l => renderNodeDecl i l
  | .edgeDecl a b => renderEdgeDecl a b
  | .junk t => t

/-- A file as the list of its lines, joined by newlines. -/
def joinLines : List Str → Str
  | [] => []
  | [l] => l
  | l :: ls => l ++ '
' :: joinLines ls

/-- The text of a structured file. -/
def renderFile (L : List DLine) : Str := joinLines (L.map DLine.render)

/-- A character that can appear in an identifier or a label without
interfering with either pattern: not a quote, not whitespace, and not one
of the pattern metacharacters. -/
def plainChar (c : Char) : Prop :=
  c ≠ qc ∧ isPySpace c = false ∧ c ≠ '[' ∧ c ≠ ']' ∧ c ≠ '-' ∧ c ≠ '>'

instance (c : Char) : Decidable (plainChar c) := by
  unfold plainChar; infer_instance

/-- A nonempty string of plain characters. -/
def plainStr (s : Str) : Prop := s ≠ [] ∧ ∀ c ∈ s, plainChar c

instance (s : Str) : Decidable (plainStr s) := by
  unfold plainStr; infer_instance

/-- Well-formedness of a structured line: identifiers and labels are
plain; junk text contains no quote and no opening bracket (so that no
match can extend across a line boundary). -/
def DLine.wf : DLine → Prop
  | .nodeDecl i l => plainStr i ∧ plainStr l
  | .edgeDecl a b => plainStr a ∧ plainStr b
  | .junk t => ∀ c ∈ t, c ≠ qc ∧ c ≠ '['

instance : (d : DLine) → Decidable d.wf := fun d => by
  cases d <;> (unfold DLine.wf; infer_instance)

/-- A well-formed structured file. -/
def wfFile (L : List DLine) : Prop := ∀ d ∈ L, d.wf

instance (L : List DLine) : Decidable (wfFile L) := by
  unfold wfFile; infer_instance

/-- The node declarations of a structured file, in order. -/
def nodeDecls (L : List DLine) : List (Str × Str) :=
  L.filterMap fun d => match d with
    | .nodeDecl i l => some (i, l)
    | _ => none

/-- The edge declarations of a structured file, in order. -/
def edgeDecls (L : List DLine) : List (Str × Str) :=
  L.filterMap fun d => match d with
    | .edgeDecl a b => some (a, b)
    | _ => none

/-- The text after the first quote, if any. -/
def afterQuote : Str → Option Str
  | [] => none
  | c :: cs => if c = qc then some cs else afterQuote cs

/-- A suffix is safe when no match attempt reaching into it from a
preceding declaration can succeed: its first quote, if any, is directly
followed by a plain character, and its first non-whitespace character, if
any, is not an opening bracket. -/
def SafeSuffix (s : Str) : Prop :=
  (∀ q, afterQuote s = some q → ∃ c cs, q = c :: cs ∧ plainChar c) ∧
  (∀ c cs, dropSpaces s = c :: cs → c ≠ '[')

theorem afterQuote_none (s : Str) (h : afterQuote s = none) : ∀ c ∈ s, c ≠ qc := by
  induction s with
  | nil => intro c hc; simp at hc
  | cons c cs ih =>
    by_cases hc : c = qc
    · simp [afterQuote, hc] at h
    · intro d hd
      rcases List.mem_cons.mp hd with hd | hd
      · simpa [hd] using hc
      · exact ih (by simpa [afterQuote, hc] using h) d hd

theorem afterQuote_decomp (s q : Str) (h : afterQuote s = some q) :
    ∃ p, s = p ++ qc :: q ∧ ∀ c ∈ p, c ≠ qc := by
  induction s with
  | nil => simp [afterQuote] at h
  | cons c cs ih =>
    by_cases hc : c = qc
    · subst hc
      simp [afterQuote] at h
      exact ⟨[], by simp [h], by simp⟩
    · obtain ⟨p, hp, hpq⟩ := ih (by simpa [afterQuote, hc] using h)
      refine ⟨c :: p, by simp [hp], ?_⟩
      intro d hd
      rcases List.mem_cons.mp hd with hd | hd
      · simpa [hd] using hc
      · exact hpq d hd

theorem safeSuffix_nil : SafeSuffix [] := by
  constructor
  · intro q hq; simp [afterQuote] at hq
  · intro c cs h; simp [dropSpaces] at h

theorem safeSuffix_cons_space (c : Char) (s : Str) (hsp : isPySpace c = true)
    (hq : c ≠ qc) (h : SafeSuffix s) : SafeSuffix (c :: s) := by
  constructor
  · intro q hqq
    exact h.1 q (by simpa [afterQuote, hq] using hqq)
  · intro d ds hd
    rw [dropSpaces_cons_of_space c s hsp] at hd
    exact h.2 d ds hd

theorem safeSuffix_newline (s : Str) (h : SafeSuffix s) : SafeSuffix ('
' :: s) :=
  safeSuffix_cons_space '
' s (by decide) (by decide) h

theorem safeSuffix_node (i l : Str) (hi : plainStr i) (t : Str) :
    SafeSuffix (renderNodeDecl i l ++ t) := by
  obtain ⟨x, xs, hx⟩ := List.exists_cons_of_ne_nil hi.1
  constructor
  · intro q hqq
    have : afterQuote (renderNodeDecl i l ++ t) =
        some (i ++ (qc :: ' ' :: (labelLit ++ (l ++ (qc :: ']' :: t))))) := by
      simp [renderNodeDecl, afterQuote]
    rw [this] at hqq
    obtain rfl : i ++ (qc :: ' ' :: (labelLit ++ (l ++ (qc :: ']' :: t)))) = q := by
      simpa using hqq
    subst hx
    refine ⟨x, xs ++ (qc :: ' ' :: (labelLit ++ (l ++ (qc :: ']' :: t)))), by simp,
      hi.2 x (by simp)⟩
  · intro d ds hd
    have : dropSpaces (renderNodeDecl i l ++ t) = renderNodeDecl i l ++ t := by
      show dropSpaces (qc :: _) = _
      exact dropSpaces_cons_of_nonspace _ _ (by decide)
    rw [this] at hd
    have : d = qc := by
      have := congrArg (fun u => u.head?) hd
      simpa [renderNodeDecl] using this.symm
    simp [this]
    decide

theorem safeSuffix_edge (a b : Str) (ha : plainStr a) (t : Str) :
    SafeSuffix (renderEdgeDecl a b ++ t) := by
  obtain ⟨x, xs, hx⟩ := List.exists_cons_of_ne_nil ha.1
  constructor
  · intro q hqq
    have : afterQuote (renderEdgeDecl a b ++ t) =
        some (a ++ (qc :: ' ' :: '-' :: '>' :: ' ' :: qc :: (b ++ (qc :: t)))) := by
      simp [renderEdgeDecl, afterQuote]
    rw [this] at hqq
    obtain rfl : a ++ (qc :: ' ' :: '-' :: '>' :: ' ' :: qc :: (b ++ (qc :: t))) = q := by
      simpa using hqq
    subst hx
    refine ⟨x, xs ++ (qc :: ' ' :: '-' :: '>' :: ' ' :: qc :: (b ++ (qc :: t))), by simp,
      ha.2 x (by simp)⟩
  · intro d ds hd
    have : dropSpaces (renderEdgeDecl a b ++ t) = renderEdgeDecl a b ++ t := by
      show dropSpaces (qc :: _) = _
      exact dropSpaces_cons_of_nonspace _ _ (by decide)
    rw [this] at hd
    have : d = qc := by
      have := congrArg (fun u => u.head?) hd
      simpa [renderEdgeDecl] using this.symm
    simp [this]
    decide

theorem safeSuffix_junk (t : Str) (ht : ∀ c ∈ t, c ≠ qc ∧ c ≠ '[') (s : Str)
    (h : SafeSuffix s) : SafeSuffix (t ++ s) := by
  induction t with
  | nil => simpa using h
  | cons c cs ih =>
    have hc := ht c (by simp)
    have ih' := ih (fun d hd => ht d (by simp [hd]))
    constructor
    · intro q hqq
      exact ih'.1 q (by simpa [afterQuote, hc.1] using hqq)
    · intro d ds hd
      by_cases hsp : isPySpace c
      · rw [List.cons_append, dropSpaces_cons_of_space _ _ hsp] at hd
        exact ih'.2 d ds hd
      · rw [List.cons_append,
          dropSpaces_cons_of_nonspace _ _ (by simpa using hsp)] at hd
        have : d = c := (List.cons.injEq _ _ _ _ ▸ hd.symm).1
        simpa [this] using hc.2

/-! Helper refutations for the literal fragments. -/

theorem expects_none_head (c d : Char) (cs w : Str) (h : c ≠ d) :
    expects (c :: cs) (d :: w) = none := by
  simp [expects, h]

theorem expects_labelLit_none (d : Char) (w : Str) (h : d ≠ '[') :
    expects labelLit (d :: w) = none := by
  show expects ('[' :: ['l', 'a', 'b', 'e', 'l', '=', qc]) (d :: w) = none
  exact expects_none_head '[' d _ _ (Ne.symm h)

theorem expects_labelLit_nil : expects labelLit [] = none := rfl

theorem expects_arrow_none (d : Char) (w : Str) (h : d ≠ '-') :
    expects ['-', '>'] (d :: w) = none :=
  expects_none_head '-' d _ _ (Ne.symm h)

theorem expects_arrow_labelLit (w : Str) : expects ['-', '>'] (labelLit ++ w) = none := by
  show expects ['-', '>'] ('[' :: (['l', 'a', 'b', 'e', 'l', '=', qc] ++ w)) = none
  exact expects_none_head '-' '[' _ _ (by decide)

/-! How each scanner traverses each kind of rendered line. -/

theorem finditerNode_node_line (i l s : Str) (hi : plainStr i) (hl : plainStr l) :
    finditerNode (renderNodeDecl i l ++ s) = (i, l) :: finditerNode s := by
  have hb := matchNodeAt_build i l s hi.1 (fun c hc => (hi.2 c hc).1)
    hl.1 (fun c hc => (hl.2 c hc).1)
  have hshape : renderNodeDecl i l ++ s =
      qc :: (i ++ (qc :: ' ' :: (labelLit ++ (l ++ (qc :: ']' :: s))))) := by
    simp [renderNodeDecl]
  rw [hshape] at hb ⊢
  exact finditerNode_cons_some hb

theorem finditerEdge_edge_line (a b s : Str) (ha : plainStr a) (hb : plainStr b) :
    finditerEdge (renderEdgeDecl a b ++ s) = (a, b) :: finditerEdge s := by
  have hm := matchEdgeAt_build a b s ha.1 (fun c hc => (ha.2 c hc).1)
    hb.1 (fun c hc => (hb.2 c hc).1)
  have hshape : renderEdgeDecl a b ++ s =
      qc :: (a ++ (qc :: ' ' :: '-' :: '>' :: ' ' :: qc :: (b ++ (qc :: s)))) := by
    simp [renderEdgeDecl]
  rw [hshape] at hm ⊢
  exact finditerEdge_cons_some hm

theorem finditerEdge_node_line (i l s : Str) (hi : plainStr i) (hl : plainStr l)
    (hs : SafeSuffix s) :
    finditerEdge (renderNodeDecl i l ++ s) = finditerEdge s := by
  have hiq : ∀ c ∈ i, c ≠ qc := fun c hc => (hi.2 c hc).1
  have hlq : ∀ c ∈ l, c ≠ qc := fun c hc => (hl.2 c hc).1
  obtain ⟨lx, lxs, hlx⟩ := List.exists_cons_of_ne_nil hl.1
  rw [show renderNodeDecl i l ++ s =
      qc :: (i ++ (qc :: ' ' :: (labelLit ++ (l ++ (qc :: ']' :: s))))) from by
    simp [renderNodeDecl]]
  have h1 : matchEdgeAt (qc :: (i ++ (qc :: ' ' :: (labelLit ++ (l ++ (qc :: ']' :: s)))))) =
      none := by
    have hmq : matchQuoted (qc :: i ++ qc :: (' ' :: (labelLit ++ (l ++ (qc :: ']' :: s))))) =
        some (i, ' ' :: (labelLit ++ (l ++ (qc :: ']' :: s)))) :=
      matchQuoted_build i _ hi.1 hiq
    rw [List.cons_append] at hmq
    unfold matchEdgeAt
    rw [hmq]
    dsimp only
    rw [dropSpaces_cons_of_space _ _ (by decide)]
    rw [show dropSpaces (labelLit ++ (l ++ (qc :: ']' :: s))) =
        labelLit ++ (l ++ (qc :: ']' :: s)) from
      dropSpaces_cons_of_nonspace '[' _ (by decide)]
    rw [expects_arrow_labelLit]
  rw [finditerEdge_cons_none h1]
  rw [finditerEdge_append_noquote i _ hiq]
  have h2 : matchEdgeAt (qc :: ' ' :: (labelLit ++ (l ++ (qc :: ']' :: s)))) = none := by
    have hmq := matchQuoted_build [' ', '[', 'l', 'a', 'b', 'e', 'l', '=']
      (l ++ (qc :: ']' :: s)) (by simp) (by decide)
    rw [List.cons_append] at hmq
    rw [show (qc : Char) :: ' ' :: (labelLit ++ (l ++ (qc :: ']' :: s))) =
        qc :: ([' ', '[', 'l', 'a', 'b', 'e', 'l', '='] ++ qc :: (l ++ (qc :: ']' :: s))) from by
      simp [labelLit]]
    unfold matchEdgeAt
    rw [hmq]
    dsimp only
    subst hlx
    rw [show dropSpaces ((lx :: lxs) ++ (qc :: ']' :: s)) = (lx :: lxs) ++ (qc :: ']' :: s) from by
      rw [List.cons_append]
      exact dropSpaces_cons_of_nonspace _ _ ((hl.2 lx (by simp)).2.1)]
    rw [List.cons_append]
    rw [expects_arrow_none lx _ ((hl.2 lx (by simp)).2.2.2.2.1)]
  rw [finditerEdge_cons_none h2]
  rw [show (' ' :: (labelLit ++ (l ++ (qc :: ']' :: s)))) =
      ([' ', '[', 'l', 'a', 'b', 'e', 'l', '='] ++ (qc :: (l ++ (qc :: ']' :: s)))) from by
    simp [labelLit]]
  rw [finditerEdge_append_noquote [' ', '[', 'l', 'a', 'b', 'e', 'l', '='] _ (by decide)]
  have h3 : matchEdgeAt (qc :: (l ++ (qc :: ']' :: s))) = none := by
    have hmq := matchQuoted_build l (']' :: s) hl.1 hlq
    rw [List.cons_append] at hmq
    unfold matchEdgeAt
    rw [hmq]
    dsimp only
    rw [dropSpaces_cons_of_nonspace ']' s (by decide)]
    rw [expects_arrow_none ']' _ (by decide)]
  rw [finditerEdge_cons_none h3]
  rw [finditerEdge_append_noquote l _ hlq]
  have h4 : matchEdgeAt (qc :: ']' :: s) = none := by
    rcases haq : afterQuote s with - | q
    · have hnq : ∀ c ∈ (']' :: s), c ≠ qc := by
        intro c hc
        rcases List.mem_cons.mp hc with hc | hc
        · subst hc; decide
        · exact afterQuote_none s haq c hc
      unfold matchEdgeAt
      rw [matchQuoted_none_of_noclose (']' :: s) hnq]
    · obtain ⟨p, hp, hpq⟩ := afterQuote_decomp s q haq
      obtain ⟨c0, q', hq0, hc0⟩ := hs.1 q haq
      subst hq0
      subst hp
      have hmq := matchQuoted_build (']' :: p) (c0 :: q') (by simp) (by
        intro c hc
        rcases List.mem_cons.mp hc with hc | hc
        · subst hc; decide
        · exact hpq c hc)
      simp only [List.cons_append] at hmq
      unfold matchEdgeAt
      rw [hmq]
      dsimp only
      rw [dropSpaces_cons_of_nonspace c0 q' hc0.2.1]
      rw [expects_arrow_none c0 _ hc0.2.2.2.2.1]
  rw [finditerEdge_cons_none h4]
  rw [finditerEdge_cons_none (matchEdgeAt_none_of_head ']' s (by decide))]

theorem finditerNode_edge_line (a b s : Str) (ha : plainStr a) (hb : plainStr b)
    (hs : SafeSuffix s) :
    finditerNode (renderEdgeDecl a b ++ s) = finditerNode s := by
  have haq : ∀ c ∈ a, c ≠ qc := fun c hc => (ha.2 c hc).1
  have hbq : ∀ c ∈ b, c ≠ qc := fun c hc => (hb.2 c hc).1
  obtain ⟨bx, bxs, hbx⟩ := List.exists_cons_of_ne_nil hb.1
  rw [show renderEdgeDecl a b ++ s =
      qc :: (a ++ (qc :: ' ' :: '-' :: '>' :: ' ' :: qc :: (b ++ (qc :: s)))) from by
    simp [renderEdgeDecl]]
  have h1 : matchNodeAt
      (qc :: (a ++ (qc :: ' ' :: '-' :: '>' :: ' ' :: qc :: (b ++ (qc :: s))))) = none := by
    have hmq := matchQuoted_build a
      (' ' :: '-' :: '>' :: ' ' :: qc :: (b ++ (qc :: s))) ha.1 haq
    rw [List.cons_append] at hmq
    unfold matchNodeAt
    rw [hmq]
    dsimp only
    rw [dropSpaces_cons_of_space _ _ (by decide)]
    rw [dropSpaces_cons_of_nonspace '-' _ (by decide)]
    rw [expects_labelLit_none '-' _ (by decide)]
  rw [finditerNode_cons_none h1]
  rw [finditerNode_append_noquote a _ haq]
  have h2 : matchNodeAt (qc :: ' ' :: '-' :: '>' :: ' ' :: qc :: (b ++ (qc :: s))) = none := by
    have hmq := matchQuoted_build [' ', '-', '>', ' '] (b ++ (qc :: s)) (by simp) (by decide)
    rw [List.cons_append] at hmq
    rw [show (qc :: ' ' :: '-' :: '>' :: ' ' :: qc :: (b ++ (qc :: s)) : Str) =
        qc :: ([' ', '-', '>', ' '] ++ qc :: (b ++ (qc :: s))) from by simp]
    unfold matchNodeAt
    rw [hmq]
    dsimp only
    subst hbx
    rw [show dropSpaces ((bx :: bxs) ++ (qc :: s)) = (bx :: bxs) ++ (qc :: s) from by
      rw [List.cons_append]
      exact dropSpaces_cons_of_nonspace _ _ ((hb.2 bx (by simp)).2.1)]
    rw [List.cons_append]
    rw [expects_labelLit_none bx _ ((hb.2 bx (by simp)).2.2.1)]
  rw [finditerNode_cons_none h2]
  rw [show (' ' :: '-' :: '>' :: ' ' :: qc :: (b ++ (qc :: s)) : Str) =
      ([' ', '-', '>', ' '] ++ (qc :: (b ++ (qc :: s)))) from by simp]
  rw [finditerNode_append_noquote [' ', '-', '>', ' '] _ (by decide)]
  have h3 : matchNodeAt (qc :: (b ++ (qc :: s))) = none := by
    have hmq := matchQuoted_build b s hb.1 hbq
    rw [List.cons_append] at hmq
    unfold matchNodeAt
    rw [hmq]
    dsimp only
    rcases hds : dropSpaces s with - | ⟨d0, ds⟩
    · rw [expects_labelLit_nil]
    · rw [expects_labelLit_none d0 _ (hs.2 d0 ds hds)]
  rw [finditerNode_cons_none h3]
  rw [finditerNode_append_noquote b _ hbq]
  have h4 : matchNodeAt (qc :: s) = none := by
    rcases haq2 : afterQuote s with - | q
    · unfold matchNodeAt
      rw [matchQuoted_none_of_noclose s (afterQuote_none s haq2)]
    · obtain ⟨p, hp, hpq⟩ := afterQuote_decomp s q haq2
      obtain ⟨c0, q', hq0, hc0⟩ := hs.1 q haq2
      subst hq0
      subst hp
      rcases p with - | ⟨p0, ps⟩
      · unfold matchNodeAt
        rw [show matchQuoted (qc :: ([] ++ qc :: c0 :: q')) = none from by
          simp [matchQuoted, takeNonQuote]]
      · have hmq := matchQuoted_build (p0 :: ps) (c0 :: q')
          (by simp) hpq
        simp only [List.cons_append] at hmq
        unfold matchNodeAt
        simp only [List.cons_append]
        rw [hmq]
        dsimp only
        rw [dropSpaces_cons_of_nonspace c0 q' hc0.2.1]
        rw [expects_labelLit_none c0 _ hc0.2.2.1]
  rw [finditerNode_cons_none h4]

/-! Scanning a whole well-formed structured file. -/

theorem renderFile_single (d : DLine) : renderFile [d] = d.render := rfl

theorem renderFile_cons (d e : DLine) (L : List DLine) :
    renderFile (d :: e :: L) = d.render ++ '\n' :: renderFile (e :: L) := rfl

theorem safeSuffix_renderFile_append :
    ∀ L, wfFile L → ∀ s, SafeSuffix s → SafeSuffix (renderFile L ++ s) := by
  intro L
  induction L with
  | nil => intro _ s hs; simpa [renderFile, joinLines] using hs
  | cons d L ih =>
    intro hw s hs
    have hd : d.wf := hw d (by simp)
    have hw' : wfFile L := fun e he => hw e (by simp [he])
    cases L with
    | nil =>
      rw [renderFile_single]
      cases d with
      | nodeDecl i l => exact safeSuffix_node i l hd.1 s
      | edgeDecl a b => exact safeSuffix_edge a b hd.1 s
      | junk t => exact safeSuffix_junk t hd s hs
    | cons e L' =>
      have hrest : SafeSuffix ('\n' :: (renderFile (e :: L') ++ s)) :=
        safeSuffix_newline _ (ih hw' s hs)
      rw [renderFile_cons, List.append_assoc, List.cons_append]
      cases d with
      | nodeDecl i l => exact safeSuffix_node i l hd.1 _
      | edgeDecl a b => exact safeSuffix_edge a b hd.1 _
      | junk t => exact safeSuffix_junk t hd _ hrest

theorem finditerNode_renderFile_append :
    ∀ L, wfFile L → ∀ s, SafeSuffix s →
      finditerNode (renderFile L ++ s) = nodeDecls L ++ finditerNode s := by
  intro L
  induction L with
  | nil => intro _ s _; simp [renderFile, joinLines, nodeDecls]
  | cons d L ih =>
    intro hw s hs
    have hd : d.wf := hw d (by simp)
    have hw' : wfFile L := fun e he => hw e (by simp [he])
    cases L with
    | nil =>
      rw [renderFile_single]
      cases d with
      | nodeDecl i l =>
        rw [show (DLine.nodeDecl i l).render = renderNodeDecl i l from rfl]
        rw [finditerNode_node_line i l s hd.1 hd.2]
        simp [nodeDecls]
      | edgeDecl a b =>
        rw [show (DLine.edgeDecl a b).render = renderEdgeDecl a b from rfl]
        rw [finditerNode_edge_line a b s hd.1 hd.2 hs]
        simp [nodeDecls]
      | junk t =>
        rw [show (DLine.junk t).render = t from rfl]
        rw [finditerNode_append_noquote t s (fun c hc => (hd c hc).1)]
        simp [nodeDecls]
    | cons e L' =>
      have hrest : SafeSuffix ('\n' :: (renderFile (e :: L') ++ s)) :=
        safeSuffix_newline _ (safeSuffix_renderFile_append (e :: L') hw' s hs)
      have hstep : finditerNode ('\n' :: (renderFile (e :: L') ++ s)) =
          nodeDecls (e :: L') ++ finditerNode s := by
        rw [finditerNode_cons_none (matchNodeAt_none_of_head '\n' _ (by decide))]
        exact ih hw' s hs
      rw [renderFile_cons, List.append_assoc, List.cons_append]
      cases d with
      | nodeDecl i l =>
        rw [show (DLine.nodeDecl i l).render = renderNodeDecl i l from rfl]
        rw [finditerNode_node_line i l _ hd.1 hd.2, hstep]
        simp [nodeDecls]
      | edgeDecl a b =>
        rw [show (DLine.edgeDecl a b).render = renderEdgeDecl a b from rfl]
        rw [finditerNode_edge_line a b _ hd.1 hd.2 hrest, hstep]
        simp [nodeDecls]
      | junk t =>
        rw [show (DLine.junk t).render = t from rfl]
        rw [finditerNode_append_noquote t _ (fun c hc => (hd c hc).1), hstep]
        simp [nodeDecls]

theorem finditerEdge_renderFile_append :
    ∀ L, wfFile L → ∀ s, SafeSuffix s →
      finditerEdge (renderFile L ++ s) = edgeDecls L ++ finditerEdge s := by
  intro L
  induction L with
  | nil => intro _ s _; simp [renderFile, joinLines, edgeDecls]
  | cons d L ih =>
    intro hw s hs
    have hd : d.wf := hw d (by simp)
    have hw' : wfFile L := fun e he => hw e (by simp [he])
    cases L with
    | nil =>
      rw [renderFile_single]
      cases d with
      | nodeDecl i l =>
        rw [show (DLine.nodeDecl i l).render = renderNodeDecl i l from rfl]
        rw [finditerEdge_node_line i l s hd.1 hd.2 hs]
        simp [edgeDecls]
      | edgeDecl a b =>
        rw [show (DLine.edgeDecl a b).render = renderEdgeDecl a b from rfl]
        rw [finditerEdge_edge_line a b s hd.1 hd.2]
        simp [edgeDecls]
      | junk t =>
        rw [show (DLine.junk t).render = t from rfl]
        rw [finditerEdge_append_noquote t s (fun c hc => (hd c hc).1)]
        simp [edgeDecls]
    | cons e L' =>
      have hrest : SafeSuffix ('\n' :: (renderFile (e :: L') ++ s)) :=
        safeSuffix_newline _ (safeSuffix_renderFile_append (e :: L') hw' s hs)
      have hstep : finditerEdge ('\n' :: (renderFile (e :: L') ++ s)) =
          edgeDecls (e :: L') ++ finditerEdge s := by
        rw [finditerEdge_cons_none (matchEdgeAt_none_of_head '\n' _ (by decide))]
        exact ih hw' s hs
      rw [renderFile_cons, List.append_assoc, List.cons_append]
      cases d with
      | nodeDecl i l =>
        rw [show (DLine.nodeDecl i l).render = renderNodeDecl i l from rfl]
        rw [finditerEdge_node_line i l _ hd.1 hd.2 hrest, hstep]
        simp [edgeDecls]
      | edgeDecl a b =>
        rw [show (DLine.edgeDecl a b).render = renderEdgeDecl a b from rfl]
        rw [finditerEdge_edge_line a b _ hd.1 hd.2, hstep]
        simp [edgeDecls]
      | junk t =>
        rw [show (DLine.junk t).render = t from rfl]
        rw [finditerEdge_append_noquote t _ (fun c hc => (hd c hc).1), hstep]
        simp [edgeDecls]

/-- The node matches of a well-formed structured file are exactly its node
declarations, in order. -/
theorem finditerNode_renderFile (L : List DLine) (hw : wfFile L) :
    finditerNode (renderFile L) = nodeDecls L := by
  have h := finditerNode_renderFile_append L hw [] safeSuffix_nil
  simpa [finditerNode_nil] using h

/-- The edge matches of a well-formed structured file are exactly its edge
declarations, in order. -/
theorem finditerEdge_renderFile (L : List DLine) (hw : wfFile L) :
    finditerEdge (renderFile L) = edgeDecls L := by
  have h := finditerEdge_renderFile_append L hw [] safeSuffix_nil
  simpa [finditerEdge_nil] using h

/-! Properties of the node/calls accumulation of dot2interactive. -/

namespace Interactive

theorem buildNodes_mem (ms : List (Str × Str)) :
    ∀ (seen : List Str) (n : VNode), n ∈ buildNodes ms seen →
      n.id ∉ seen ∧
      ms.find? (fun m => m.1 == n.id) = some (n.id, n.label) ∧
      n.group = classify n.id ∧ n.title = n.label ++ titleHint := by
  induction ms with
  | nil => intro seen n hn; simp [buildNodes] at hn
  | cons m ms ih =>
    intro seen n hn
    by_cases hm : m.1 ∈ seen
    · rw [show buildNodes (m :: ms) seen = buildNodes ms seen from by
        simp [buildNodes, hm]] at hn
      obtain ⟨h1, h2, h3, h4⟩ := ih seen n hn
      refine ⟨h1, ?_, h3, h4⟩
      have hne : (m.1 == n.id) = false := by
        simp only [beq_eq_false_iff_ne, ne_eq]
        intro he
        exact h1 (he ▸ hm)
      rw [List.find?_cons_of_neg _ (by simp [hne]), h2]
    · rw [show buildNodes (m :: ms) seen =
          ({ id := m.1, label := m.2, group := classify m.1,
             title := m.2 ++ titleHint } : VNode) :: buildNodes ms (m.1 :: seen) from by
        simp [buildNodes, hm]] at hn
      rcases List.mem_cons.mp hn with hn | hn
      · subst hn
        refine ⟨hm, ?_, rfl, rfl⟩
        rw [List.find?_cons_of_pos _ (by simp)]
      · obtain ⟨h1, h2, h3, h4⟩ := ih (m.1 :: seen) n hn
        have hne : n.id ≠ m.1 := fun he => h1 (by simp [he])
        refine ⟨fun hs => h1 (by simp [hs]), ?_, h3, h4⟩
        rw [List.find?_cons_of_neg _ (by simp [Ne.symm hne]), h2]

theorem buildNodes_count (ms : List (Str × Str)) :
    ∀ (seen : List Str) (i : Str),
      ((buildNodes ms seen).filter (fun n => n.id = i)).length =
        if i ∈ seen then 0 else if i ∈ ms.map Prod.fst then 1 else 0 := by
  induction ms with
  | nil => intro seen i; simp [buildNodes]
  | cons m ms ih =>
    intro seen i
    by_cases hm : m.1 ∈ seen
    · rw [show buildNodes (m :: ms) seen = buildNodes ms seen from by
        simp [buildNodes, hm]]
      rw [ih seen i]
      by_cases hi : i ∈ seen
      · simp [hi]
      · have hne : i ≠ m.1 := fun he => hi (he ▸ hm)
        by_cases hmem : i ∈ List.map Prod.fst ms <;>
          simp [hi, hmem, List.mem_cons, hne]
    · rw [show buildNodes (m :: ms) seen =
          ({ id := m.1, label := m.2, group := classify m.1,
             title := m.2 ++ titleHint } : VNode) :: buildNodes ms (m.1 :: seen) from by
        simp [buildNodes, hm]]
      by_cases hi : i = m.1
      · subst hi
        rw [List.filter_cons_of_pos (by simp)]
        rw [List.length_cons, ih (m.1 :: seen) m.1]
        simp [hm]
      · rw [List.filter_cons_of_neg (by simp [Ne.symm hi])]
        rw [ih (m.1 :: seen) i]
        by_cases hs : i ∈ seen
        · simp [List.mem_cons, hs, hi]
        · by_cases hmem : i ∈ List.map Prod.fst ms <;>
            simp [List.mem_cons, hs, hi, hmem]

theorem buildNodes_ids_nodup (ms : List (Str × Str)) :
    ∀ seen, ((buildNodes ms seen).map VNode.id).Nodup := by
  induction ms with
  | nil => intro seen; simp [buildNodes]
  | cons m ms ih =>
    intro seen
    by_cases hm : m.1 ∈ seen
    · rw [show buildNodes (m :: ms) seen = buildNodes ms seen from by
        simp [buildNodes, hm]]
      exact ih seen
    · rw [show buildNodes (m :: ms) seen =
          ({ id := m.1, label := m.2, group := classify m.1,
             title := m.2 ++ titleHint } : VNode) :: buildNodes ms (m.1 :: seen) from by
        simp [buildNodes, hm]]
      rw [List.map_cons, List.nodup_cons]
      constructor
      · intro hmem
        rcases List.mem_map.mp hmem with ⟨n, hn, hid⟩
        have h1 := (buildNodes_mem ms (m.1 :: seen) n hn).1
        rw [hid] at h1
        exact h1 (by simp)
      · exact ih (m.1 :: seen)

theorem buildNodes_exists_of_declared (ms : List (Str × Str)) :
    ∀ seen i, i ∉ seen → i ∈ ms.map Prod.fst →
      ∃ n ∈ buildNodes ms seen, n.id = i := by
  intro seen i hs hd
  have hc := buildNodes_count ms seen i
  rw [if_neg hs, if_pos hd] at hc
  have hne : (buildNodes ms seen).filter (fun n => n.id = i) ≠ [] := by
    intro h
    rw [h] at hc
    simp at hc
  obtain ⟨n, hn⟩ := List.exists_mem_of_ne_nil _ hne
  obtain ⟨hn1, hn2⟩ := List.mem_filter.mp hn
  exact ⟨n, hn1, by simpa using hn2⟩

theorem buildCalls_eq_map : ∀ (ms : List (Str × Str)) (calls : List (Str × List Str)),
    buildCalls calls ms =
      calls.map (fun kv => (kv.1,
        ms.foldl (fun acc m => if m.1 = kv.1 then addTarget acc m.2 else acc) kv.2)) := by
  intro ms
  induction ms with
  | nil =>
    intro calls
    show calls = _
    simp
  | cons m ms ih =>
    intro calls
    show buildCalls (addCall calls m.1 m.2) ms = _
    rw [ih (addCall calls m.1 m.2)]
    unfold addCall
    rw [List.map_map]
    apply List.map_congr_left
    intro kv _
    simp only [Function.comp_apply, List.foldl_cons]
    by_cases hkv : kv.1 = m.1
    · rw [if_pos hkv, if_pos (hkv.symm)]
    · rw [if_neg hkv, if_neg (fun h => hkv h.symm)]

theorem foldl_addTarget_mem (i : Str) : ∀ (ms : List (Str × Str)) (v : List Str) (t : Str),
    t ∈ ms.foldl (fun acc m => if m.1 = i then addTarget acc m.2 else acc) v ↔
      t ∈ v ∨ (i, t) ∈ ms := by
  intro ms
  induction ms with
  | nil => intro v t; simp
  | cons m ms ih =>
    intro v t
    rw [List.foldl_cons, ih]
    by_cases hm : m.1 = i
    · rw [if_pos hm]
      unfold addTarget
      by_cases ht : m.2 ∈ v
      · rw [if_pos ht]
        constructor
        · intro h
          rcases h with h | h
          · exact Or.inl h
          · exact Or.inr (List.mem_cons_of_mem _ h)
        · intro h
          rcases h with h | h
          · exact Or.inl h
          · rcases List.mem_cons.mp h with h | h
            · have h2 : t = m.2 := congrArg Prod.snd h
              exact Or.inl (by rw [h2]; exact ht)
            · exact Or.inr h
      · rw [if_neg ht]
        constructor
        · intro h
          rcases h with h | h
          · rcases List.mem_append.mp h with h | h
            · exact Or.inl h
            · have ht2 : t = m.2 := by simpa using h
              exact Or.inr (List.mem_cons.mpr (Or.inl (by
                simp [Prod.ext_iff, ht2, hm])))
          · exact Or.inr (List.mem_cons_of_mem _ h)
        · intro h
          rcases h with h | h
          · exact Or.inl (List.mem_append.mpr (Or.inl h))
          · rcases List.mem_cons.mp h with h | h
            · have h2 : t = m.2 := congrArg Prod.snd h
              exact Or.inl (List.mem_append.mpr (Or.inr (by simp [h2])))
            · exact Or.inr h
    · rw [if_neg hm]
      constructor
      · intro h
        rcases h with h | h
        · exact Or.inl h
        · exact Or.inr (List.mem_cons_of_mem _ h)
      · intro h
        rcases h with h | h
        · exact Or.inl h
        · rcases List.mem_cons.mp h with h | h
          · have h1 : i = m.1 := congrArg Prod.fst h
            exact absurd h1.symm hm
          · exact Or.inr h

end Interactive

/-! Bridging lemmas: parsing rendered structured files, and congruence of
the comparator under set equality. -/

theorem ddparse_renderFile (L : List DLine) (hw : wfFile L) :
    Dotdiff.parse_dot_file (renderFile L) =
      { nodes := Dotdiff.canon (nodeDecls L), edges := Dotdiff.canon (edgeDecls L) } := by
  unfold Dotdiff.parse_dot_file
  rw [finditerNode_renderFile L hw, finditerEdge_renderFile L hw]

theorem nodeDecls_mem_iff {L L' : List DLine} (h : ∀ d, d ∈ L ↔ d ∈ L') :
    ∀ x, x ∈ nodeDecls L ↔ x ∈ nodeDecls L' := by
  intro x
  unfold nodeDecls
  rw [List.mem_filterMap, List.mem_filterMap]
  constructor
  · rintro ⟨d, hd, hf⟩; exact ⟨d, (h d).mp hd, hf⟩
  · rintro ⟨d, hd, hf⟩; exact ⟨d, (h d).mpr hd, hf⟩

theorem edgeDecls_mem_iff {L L' : List DLine} (h : ∀ d, d ∈ L ↔ d ∈ L') :
    ∀ x, x ∈ edgeDecls L ↔ x ∈ edgeDecls L' := by
  intro x
  unfold edgeDecls
  rw [List.mem_filterMap, List.mem_filterMap]
  constructor
  · rintro ⟨d, hd, hf⟩; exact ⟨d, (h d).mp hd, hf⟩
  · rintro ⟨d, hd, hf⟩; exact ⟨d, (h d).mpr hd, hf⟩

namespace Dotdiff

theorem onlyIn_congr {a a' b b' : List (Str × Str)}
    (ha : ∀ x, x ∈ a ↔ x ∈ a') (hb : ∀ x, x ∈ b ↔ x ∈ b') :
    onlyIn a b = onlyIn a' b' := by
  unfold onlyIn
  apply canon_eq_of_mem_iff
  intro x
  rw [List.mem_filter, List.mem_filter]
  constructor
  · rintro ⟨h1, h2⟩
    refine ⟨(ha x).mp h1, ?_⟩
    simp only [decide_eq_true_eq] at h2 ⊢
    exact fun hx => h2 ((hb x).mpr hx)
  · rintro ⟨h1, h2⟩
    refine ⟨(ha x).mpr h1, ?_⟩
    simp only [decide_eq_true_eq] at h2 ⊢
    exact fun hx => h2 ((hb x).mp hx)

theorem compareGraphs_congr {g1 g1' g2 g2' : Graph}
    (hn1 : ∀ x, x ∈ g1.nodes ↔ x ∈ g1'.nodes)
    (he1 : ∀ x, x ∈ g1.edges ↔ x ∈ g1'.edges)
    (hn2 : ∀ x, x ∈ g2.nodes ↔ x ∈ g2'.nodes)
    (he2 : ∀ x, x ∈ g2.edges ↔ x ∈ g2'.edges) :
    compareGraphs g1 g2 = compareGraphs g1' g2' := by
  have hcn1 : canon g1.nodes = canon g1'.nodes := canon_eq_of_mem_iff hn1
  have hce1 : canon g1.edges = canon g1'.edges := canon_eq_of_mem_iff he1
  have hcn2 : canon g2.nodes = canon g2'.nodes := canon_eq_of_mem_iff hn2
  have hce2 : canon g2.edges = canon g2'.edges := canon_eq_of_mem_iff he2
  have hd : differencesOf g1 g2 = differencesOf g1' g2' := by
    unfold differencesOf
    rw [onlyIn_congr hn1 hn2, onlyIn_congr hn2 hn1,
      onlyIn_congr he1 he2, onlyIn_congr he2 he1]
  unfold compareGraphs
  rw [hd]
  unfold countLine
  rw [hcn1, hce1, hcn2, hce2]

/-! Lines of the report. -/

theorem head_nodeDiffLine (sign : Char) (m : Str × Str) :
    (nodeDiffLine sign m).head? = some ' ' := rfl

theorem head_edgeDiffLine (sign : Char) (m : Str × Str) :
    (edgeDiffLine sign m).head? = some ' ' := rfl

theorem not_mem_nodeDiffLines {hdr : Str} (h : hdr.head? ≠ some ' ')
    (sign : Char) (l : List (Str × Str)) : hdr ∉ l.map (nodeDiffLine sign) := by
  intro hm
  rcases List.mem_map.mp hm with ⟨m, -, hq⟩
  exact h (by rw [← hq, head_nodeDiffLine])

theorem not_mem_edgeDiffLines {hdr : Str} (h : hdr.head? ≠ some ' ')
    (sign : Char) (l : List (Str × Str)) : hdr ∉ l.map (edgeDiffLine sign) := by
  intro hm
  rcases List.mem_map.mp hm with ⟨m, -, hq⟩
  exact h (by rw [← hq, head_edgeDiffLine])

theorem not_mem_ite_block {hdr hdr' : Str} {lines : List Str} {P : Prop}
    [Decidable P] (hne : hdr ≠ hdr') (hlines : hdr ∉ lines) :
    hdr ∉ (if P then [] else hdr' :: lines) := by
  split
  · simp
  · intro hm
    rcases List.mem_cons.mp hm with hm | hm
    · exact hne hm
    · exact hlines hm

theorem mem_own_block {hdr : Str} {lines : List Str} {l : List (Str × Str)}
    (h : l ≠ []) : hdr ∈ (if l.isEmpty then [] else hdr :: lines) := by
  rw [if_neg (by simpa [List.isEmpty_iff] using h)]
  exact List.mem_cons_self _ _

end Dotdiff

/-! The claims. -/

/-- C3: the node classifier is a total function of the id string alone,
evaluating four mutually exclusive rules in strict priority order (module
prefix; then runtime prefix or fixed runtime-primitive names; then fixed
entry-point/math names; then user), so that in particular `__mod_init`
maps to category 1, `malloc` to 2, `main` to 3 and `compute_sum` to 4. -/
theorem claim_C3 :
    (∀ i : Str, Interactive.classify i = 1 ∨ Interactive.classify i = 2 ∨
      Interactive.classify i = 3 ∨ Interactive.classify i = 4) ∧
    (∀ i : Str, "__mod_".data.isPrefixOf i = true → Interactive.classify i = 1) ∧
    (∀ i : Str, "__mod_".data.isPrefixOf i = false →
      ("_gfortran_".data.isPrefixOf i = true ∨
        i ∈ ["malloc".data, "free".data, "memset".data, "memmove".data, "realloc".data]) →
      Interactive.classify i = 2) ∧
    (∀ i : Str, "__mod_".data.isPrefixOf i = false →
      "_gfortran_".data.isPrefixOf i = false →
      i ∉ ["malloc".data, "free".data, "memset".data, "memmove".data, "realloc".data] →
      i ∈ ["main".data, "MAIN__".data, "sqrt".data, "lround".data, "copysign".data] →
      Interactive.classify i = 3) ∧
    (∀ i : Str, "__mod_".data.isPrefixOf i = false →
      "_gfortran_".data.isPrefixOf i = false →
      i ∉ ["malloc".data, "free".data, "memset".data, "memmove".data, "realloc".data] →
      i ∉ ["main".data, "MAIN__".data, "sqrt".data, "lround".data, "copysign".data] →
      Interactive.classify i = 4) ∧
    Interactive.classify "__mod_init".data = 1 ∧
    Interactive.classify "malloc".data = 2 ∧
    Interactive.classify "main".data = 3 ∧
    Interactive.classify "compute_sum".data = 4 := by
  refine ⟨?_, ?_, ?_, ?_, ?_, by decide, by decide, by decide, by decide⟩
  · intro i
    unfold Interactive.classify
    split
    · exact Or.inl rfl
    · split
      · exact Or.inr (Or.inl rfl)
      · split
        · exact Or.inr (Or.inr (Or.inl rfl))
        · exact Or.inr (Or.inr (Or.inr rfl))
  · intro i h1
    unfold Interactive.classify
    rw [if_pos h1]
  · intro i h1 h2
    unfold Interactive.classify
    rw [if_neg (by simp [h1]), if_pos h2]
  · intro i h1 h2 h3 h4
    unfold Interactive.classify
    rw [if_neg (by simp [h1]), if_neg (by simp [h2, h3]), if_pos h4]
  · intro i h1 h2 h3 h4
    unfold Interactive.classify
    rw [if_neg (by simp [h1]), if_neg (by simp [h2, h3]), if_neg h4]

/-- Witness for C3 at concrete inputs. -/
theorem claim_C3_witness :
    Interactive.classify "__mod_helper".data = 1 ∧
    Interactive.classify "_gfortran_st_write".data = 2 ∧
    Interactive.classify "free".data = 2 ∧
    Interactive.classify "MAIN__".data = 3 ∧
    Interactive.classify "my_solver".data = 4 :=
  ⟨claim_C3.2.1 "__mod_helper".data (by decide),
   claim_C3.2.2.1 "_gfortran_st_write".data (by decide) (by decide),
   claim_C3.2.2.1 "free".data (by decide) (by decide),
   claim_C3.2.2.2.1 "MAIN__".data (by decide) (by decide) (by decide) (by decide),
   claim_C3.2.2.2.2.1 "my_solver".data (by decide) (by decide) (by decide) (by decide)⟩

/-- C6: comparing any graph with itself yields the verdict "equal", the
one-line identical summary, and all four set differences are empty. -/
theorem claim_C6 (g : Dotdiff.Graph) :
    Dotdiff.compareGraphs g g = (true, ["Graphs are structurally identical".data]) ∧
    Dotdiff.onlyIn g.nodes g.nodes = [] ∧ Dotdiff.onlyIn g.edges g.edges = [] := by
  have h1 := Dotdiff.onlyIn_self g.nodes
  have h2 := Dotdiff.onlyIn_self g.edges
  have hv : (Dotdiff.compareGraphs g g).1 = true := by
    rw [Dotdiff.compareGraphs_verdict_diffs]
    exact ⟨h1, h1, h2, h2⟩
  have hs := Dotdiff.compareGraphs_equal_summary g g hv
  exact ⟨Prod.ext hv hs, h1, h2⟩

/-- C8: extraction is total over all inputs and best-effort: a position
starting no match is silently skipped one character at a time; on an
input with no matching fragment both extractors return empty collections;
and text without any quote character can contain no match of either
pattern. -/
theorem claim_C8 :
    (∀ c s, matchNodeAt (c :: s) = none → finditerNode (c :: s) = finditerNode s) ∧
    (∀ c s, matchEdgeAt (c :: s) = none → finditerEdge (c :: s) = finditerEdge s) ∧
    (∀ s, finditerNode s = [] → finditerEdge s = [] →
      Interactive.parse_dot_file s = ([], [], []) ∧
      Dotdiff.parse_dot_file s = { nodes := [], edges := [] }) ∧
    (∀ s, (∀ c ∈ s, c ≠ qc) → finditerNode s = [] ∧ finditerEdge s = []) := by
  refine ⟨?_, ?_, ?_, ?_⟩
  · intro c s h; exact finditerNode_cons_none h
  · intro c s h; exact finditerEdge_cons_none h
  · intro s hn he
    constructor
    · unfold Interactive.parse_dot_file
      rw [hn, he]
      rfl
    · unfold Dotdiff.parse_dot_file
      rw [hn, he]
      rfl
  · intro s hq
    exact ⟨finditerNode_noquote s hq, finditerEdge_noquote s hq⟩

/-- Witness for C8 at concrete inputs (a malformed fragment is skipped;
an input with no matching fragment extracts nothing). -/
theorem claim_C8_witness :
    finditerNode ('x' :: "yz".data) = finditerNode "yz".data ∧
    finditerNode "digraph G".data = [] ∧
    finditerEdge "digraph G".data = [] ∧
    Interactive.parse_dot_file "digraph G".data = ([], [], []) ∧
    Dotdiff.parse_dot_file "digraph G".data = { nodes := [], edges := [] } := by
  refine ⟨claim_C8.1 'x' "yz".data (by decide), ?_, ?_, ?_, ?_⟩
  · exact (claim_C8.2.2.2 "digraph G".data (by decide)).1
  · exact (claim_C8.2.2.2 "digraph G".data (by decide)).2
  · exact (claim_C8.2.2.1 "digraph G".data (by decide) (by decide)).1
  · exact (claim_C8.2.2.1 "digraph G".data (by decide) (by decide)).2

/-- A sample input: id `a` declared twice with different labels, then an
edge; used to instantiate the extraction claims. -/
def sampleDup : Str :=
  renderNodeDecl "a".data "x".data ++ '\n' ::
    (renderNodeDecl "a".data "y".data ++ '\n' :: renderEdgeDecl "a".data "b".data)

/-- C2: node insertion is idempotent by id with the first occurrence
winning: on any input, each declared id yields exactly one node in the
extracted node list, and that node's label is the label of the first
(earliest) declaration of that id; later re-declarations are ignored. -/
theorem claim_C2 (content : Str) (i : Str) :
    (((Interactive.parse_dot_file content).1.filter (fun n => n.id = i)).length =
      if i ∈ (finditerNode content).map Prod.fst then 1 else 0) ∧
    (∀ n ∈ (Interactive.parse_dot_file content).1,
      (finditerNode content).find? (fun m => m.1 == n.id) = some (n.id, n.label)) := by
  constructor
  · have h := Interactive.buildNodes_count (finditerNode content) [] i
    simpa [Interactive.parse_dot_file] using h
  · intro n hn
    have hn' : n ∈ Interactive.buildNodes (finditerNode content) [] := by
      simpa [Interactive.parse_dot_file] using hn
    exact (Interactive.buildNodes_mem (finditerNode content) [] n hn').2.1

/-- Witness for C2: on `sampleDup`, the id `a` (declared twice, labels `x`
then `y`) yields exactly one node, whose label is `x`. -/
theorem claim_C2_witness :
    (((Interactive.parse_dot_file sampleDup).1.filter
        (fun n => n.id = "a".data)).length = 1) ∧
    (finditerNode sampleDup).find?
        (fun m => m.1 == "a".data) = some ("a".data, "x".data) := by
  constructor
  · have h := (claim_C2 sampleDup "a".data).1
    rw [h]
    decide
  · have h2 := (claim_C2 sampleDup "a".data).2
    have hn : ({ id := "a".data, label := "x".data, group := 4,
                 title := "x".data ++ Interactive.titleHint } : Interactive.VNode) ∈
          (Interactive.parse_dot_file sampleDup).1 := by decide
    exact h2 _ hn

/-- C9: the renderable model preserves node identity and content: the edge
list is exactly the edge matches annotated with the `to` arrow marker;
every node carries its original id, its category and the tooltip formed
from its label and the fixed interaction hint; every declared id occurs as
a node, and each node id occurs exactly once. -/
theorem claim_C9 (content : Str) :
    ((Interactive.parse_dot_file content).2.1 =
      (finditerEdge content).map
        (fun m => { src := m.1, dst := m.2, arrows := "to".data })) ∧
    (∀ n ∈ (Interactive.parse_dot_file content).1,
      n.group = Interactive.classify n.id ∧
      n.title = n.label ++ Interactive.titleHint ∧
      (n.id, n.label) ∈ finditerNode content) ∧
    (∀ m ∈ finditerNode content,
      ∃ n ∈ (Interactive.parse_dot_file content).1, n.id = m.1) ∧
    ((Interactive.parse_dot_file content).1.map Interactive.VNode.id).Nodup := by
  refine ⟨rfl, ?_, ?_, ?_⟩
  · intro n hn
    have hn' : n ∈ Interactive.buildNodes (finditerNode content) [] := by
      simpa [Interactive.parse_dot_file] using hn
    obtain ⟨-, hfind, hgroup, htitle⟩ :=
      Interactive.buildNodes_mem (finditerNode content) [] n hn'
    exact ⟨hgroup, htitle, List.mem_of_find?_eq_some hfind⟩
  · intro m hm
    have hd : m.1 ∈ (finditerNode content).map Prod.fst :=
      List.mem_map.mpr ⟨m, hm, rfl⟩
    obtain ⟨n, hn, hid⟩ :=
      Interactive.buildNodes_exists_of_declared (finditerNode content) [] m.1
        (by simp) hd
    refine ⟨n, ?_, hid⟩
    simpa [Interactive.parse_dot_file] using hn
  · have h := Interactive.buildNodes_ids_nodup (finditerNode content) []
    simpa [Interactive.parse_dot_file] using h

/-- Witness for C9 on `sampleDup`. -/
theorem claim_C9_witness :
    ((Interactive.parse_dot_file sampleDup).2.1 =
      [{ src := "a".data, dst := "b".data, arrows := "to".data }]) ∧
    (∀ n ∈ (Interactive.parse_dot_file sampleDup).1,
      n.group = Interactive.classify n.id ∧
      n.title = n.label ++ Interactive.titleHint ∧
      (n.id, n.label) ∈ finditerNode sampleDup) := by
  constructor
  · rw [(claim_C9 sampleDup).1]
    decide
  · exact (claim_C9 sampleDup).2.1

/-- C10: the keys of the calls map are exactly the declared node ids in
order; the set stored at each key is exactly the set of targets of edge
matches whose source is that key; an edge match whose source was never
declared is kept in the edge list but is recorded nowhere in the map. -/
theorem claim_C10 (content : Str) :
    ((Interactive.parse_dot_file content).2.2.map Prod.fst =
      (Interactive.parse_dot_file content).1.map Interactive.VNode.id) ∧
    (∀ kv ∈ (Interactive.parse_dot_file content).2.2,
      ∀ t, t ∈ kv.2 ↔ (kv.1, t) ∈ finditerEdge content) ∧
    (∀ m ∈ finditerEdge content,
      m.1 ∉ (Interactive.parse_dot_file content).1.map Interactive.VNode.id →
      ({ src := m.1, dst := m.2, arrows := "to".data } : Interactive.VEdge) ∈
          (Interactive.parse_dot_file content).2.1 ∧
        m.1 ∉ (Interactive.parse_dot_file content).2.2.map Prod.fst) := by
  have hkeys : (Interactive.parse_dot_file content).2.2.map Prod.fst =
      (Interactive.parse_dot_file content).1.map Interactive.VNode.id := by
    show (Interactive.buildCalls _ _).map Prod.fst = _
    rw [Interactive.buildCalls_eq_map]
    rw [List.map_map, List.map_map]
    rfl
  refine ⟨hkeys, ?_, ?_⟩
  · intro kv hkv t
    have hkv' : kv ∈ (Interactive.buildCalls
        (((Interactive.buildNodes (finditerNode content) []).map fun n => (n.id, [])))
        (finditerEdge content)) := hkv
    rw [Interactive.buildCalls_eq_map] at hkv'
    rcases List.mem_map.mp hkv' with ⟨kv0, hkv0, hkveq⟩
    rcases List.mem_map.mp hkv0 with ⟨n, -, hn0⟩
    subst hkveq
    dsimp only
    rw [Interactive.foldl_addTarget_mem]
    subst hn0
    simp
  · intro m hm hnd
    constructor
    · exact List.mem_map.mpr ⟨m, hm, rfl⟩
    · rw [hkeys]
      exact hnd

/-- A sample input with one declared node, one edge from it, and one edge
whose source is never declared. -/
def sampleMix : Str :=
  renderNodeDecl "a".data "x".data ++ '\n' ::
    (renderEdgeDecl "a".data "b".data ++ '\n' :: renderEdgeDecl "zz".data "c".data)

/-- Witness for C10 on `sampleMix`: the key set is the declared id, the
value at `a` contains `b` because of the edge `a -> b`, and the dangling
edge `zz -> c` is kept in the edge list while `zz` is no key. -/
theorem claim_C10_witness :
    ((Interactive.parse_dot_file sampleMix).2.2.map Prod.fst =
      (Interactive.parse_dot_file sampleMix).1.map Interactive.VNode.id) ∧
    ("b".data ∈ (("a".data, ["b".data]) : Str × List Str).2 ↔
      ("a".data, "b".data) ∈ finditerEdge sampleMix) ∧
    (({ src := "zz".data, dst := "c".data, arrows := "to".data } :
        Interactive.VEdge) ∈ (Interactive.parse_dot_file sampleMix).2.1 ∧
      "zz".data ∉ (Interactive.parse_dot_file sampleMix).2.2.map Prod.fst) := by
  refine ⟨(claim_C10 sampleMix).1, ?_, ?_⟩
  · exact (claim_C10 sampleMix).2.1 ("a".data, ["b".data]) (by decide) "b".data
  · exact (claim_C10 sampleMix).2.2 ("zz".data, "c".data) (by decide) (by decide)

/-- C4: the comparator CLI, given two file paths (reference, candidate):
exit code 0 with the one-line identical message on structural equality;
exit code 1 with the full diff report on inequality; and when either path
is missing, exit code 1 with a file-not-found message, produced without
parsing (the result is a fixed value independent of any file content). -/
theorem claim_C4 (fs : List (Str × Str)) (prog reference_file generated_file : Str) :
    (Dotdiff.fsLookup fs reference_file = none →
      Dotdiff.main fs [prog, reference_file, generated_file] =
        (1, ["Error: Reference file not found: ".data ++ reference_file])) ∧
    (∀ c1, Dotdiff.fsLookup fs reference_file = some c1 →
      Dotdiff.fsLookup fs generated_file = none →
      Dotdiff.main fs [prog, reference_file, generated_file] =
        (1, ["Error: Generated file not found: ".data ++ generated_file])) ∧
    (∀ c1 c2, Dotdiff.fsLookup fs reference_file = some c1 →
      Dotdiff.fsLookup fs generated_file = some c2 →
      ((Dotdiff.compare_dot_files c1 c2).1 = true →
        Dotdiff.main fs [prog, reference_file, generated_file] =
          (0, ["Graphs are structurally identical".data])) ∧
      ((Dotdiff.compare_dot_files c1 c2).1 = false →
        Dotdiff.main fs [prog, reference_file, generated_file] =
          (1, (Dotdiff.compare_dot_files c1 c2).2))) := by
  refine ⟨?_, ?_, ?_⟩
  · intro h
    unfold Dotdiff.main
    dsimp only
    rw [h]
  · intro c1 h1 h2
    unfold Dotdiff.main
    dsimp only
    rw [h1, h2]
  · intro c1 c2 h1 h2
    constructor
    · intro hv
      unfold Dotdiff.main
      dsimp only
      rw [h1, h2]
      dsimp only
      rw [hv]
      have hs := Dotdiff.compareGraphs_equal_summary
        (Dotdiff.parse_dot_file c1) (Dotdiff.parse_dot_file c2) hv
      rw [show (Dotdiff.compare_dot_files c1 c2).2 =
        (Dotdiff.compareGraphs (Dotdiff.parse_dot_file c1)
          (Dotdiff.parse_dot_file c2)).2 from rfl, hs]
      rfl
    · intro hv
      unfold Dotdiff.main
      dsimp only
      rw [h1, h2]
      dsimp only
      rw [hv]
      rfl

/-- The modelled file system for the CLI witness. -/
def fsW : List (Str × Str) :=
  [("ref.dot".data, sampleDup), ("gen.dot".data, sampleDup),
   ("other.dot".data, sampleMix)]

/-- Witness for C4: a missing reference path, a missing candidate path, a
structurally equal pair, and an unequal pair. -/
theorem claim_C4_witness :
    Dotdiff.main fsW ["dotdiff".data, "missing.dot".data, "gen.dot".data] =
      (1, ["Error: Reference file not found: ".data ++ "missing.dot".data]) ∧
    Dotdiff.main fsW ["dotdiff".data, "ref.dot".data, "missing.dot".data] =
      (1, ["Error: Generated file not found: ".data ++ "missing.dot".data]) ∧
    Dotdiff.main fsW ["dotdiff".data, "ref.dot".data, "gen.dot".data] =
      (0, ["Graphs are structurally identical".data]) ∧
    (Dotdiff.main fsW ["dotdiff".data, "ref.dot".data, "other.dot".data]).1 = 1 := by
  refine ⟨?_, ?_, ?_, ?_⟩
  · exact (claim_C4 fsW "dotdiff".data "missing.dot".data "gen.dot".data).1 (by decide)
  · exact (claim_C4 fsW "dotdiff".data "ref.dot".data "missing.dot".data).2.1
      sampleDup (by decide) (by decide)
  · exact ((claim_C4 fsW "dotdiff".data "ref.dot".data "gen.dot".data).2.2
      sampleDup sampleDup (by decide) (by decide)).1 (by decide)
  · have h := ((claim_C4 fsW "dotdiff".data "ref.dot".data "other.dot".data).2.2
      sampleDup sampleMix (by decide) (by decide)).2 (by decide)
    rw [h]

/-- C1: the comparator declares two graphs structurally equal iff their
node sets (as (id,label) pairs) and edge sets (as (from,to) pairs) are
equal; and the verdict depends only on the sets of node and edge matches
of each input — independent of the textual order and of the duplication
count of the declarations — in particular, over structured declaration
files, only on the set of declaration lines. -/
theorem claim_C1 :
    (∀ g1 g2 : Dotdiff.Graph,
      (Dotdiff.compareGraphs g1 g2).1 = true ↔
        ((∀ x, x ∈ g1.nodes ↔ x ∈ g2.nodes) ∧ (∀ x, x ∈ g1.edges ↔ x ∈ g2.edges))) ∧
    (∀ c1 c1' c2 c2' : Str,
      (∀ x, x ∈ finditerNode c1 ↔ x ∈ finditerNode c1') →
      (∀ x, x ∈ finditerEdge c1 ↔ x ∈ finditerEdge c1') →
      (∀ x, x ∈ finditerNode c2 ↔ x ∈ finditerNode c2') →
      (∀ x, x ∈ finditerEdge c2 ↔ x ∈ finditerEdge c2') →
      Dotdiff.compare_dot_files c1 c2 = Dotdiff.compare_dot_files c1' c2') ∧
    (∀ L1 L1' L2 L2' : List DLine,
      wfFile L1 → wfFile L1' → wfFile L2 → wfFile L2' →
      (∀ d, d ∈ L1 ↔ d ∈ L1') → (∀ d, d ∈ L2 ↔ d ∈ L2') →
      Dotdiff.compare_dot_files (renderFile L1) (renderFile L2) =
        Dotdiff.compare_dot_files (renderFile L1') (renderFile L2')) := by
  have hmain : ∀ c1 c1' c2 c2' : Str,
      (∀ x, x ∈ finditerNode c1 ↔ x ∈ finditerNode c1') →
      (∀ x, x ∈ finditerEdge c1 ↔ x ∈ finditerEdge c1') →
      (∀ x, x ∈ finditerNode c2 ↔ x ∈ finditerNode c2') →
      (∀ x, x ∈ finditerEdge c2 ↔ x ∈ finditerEdge c2') →
      Dotdiff.compare_dot_files c1 c2 = Dotdiff.compare_dot_files c1' c2' := by
    intro c1 c1' c2 c2' hn1 he1 hn2 he2
    unfold Dotdiff.compare_dot_files
    apply Dotdiff.compareGraphs_congr
    · intro x
      show x ∈ Dotdiff.canon (finditerNode c1) ↔ x ∈ Dotdiff.canon (finditerNode c1')
      rw [Dotdiff.mem_canon, Dotdiff.mem_canon]
      exact hn1 x
    · intro x
      show x ∈ Dotdiff.canon (finditerEdge c1) ↔ x ∈ Dotdiff.canon (finditerEdge c1')
      rw [Dotdiff.mem_canon, Dotdiff.mem_canon]
      exact he1 x
    · intro x
      show x ∈ Dotdiff.canon (finditerNode c2) ↔ x ∈ Dotdiff.canon (finditerNode c2')
      rw [Dotdiff.mem_canon, Dotdiff.mem_canon]
      exact hn2 x
    · intro x
      show x ∈ Dotdiff.canon (finditerEdge c2) ↔ x ∈ Dotdiff.canon (finditerEdge c2')
      rw [Dotdiff.mem_canon, Dotdiff.mem_canon]
      exact he2 x
  refine ⟨Dotdiff.compareGraphs_verdict, hmain, ?_⟩
  intro L1 L1' L2 L2' hw1 hw1' hw2 hw2' h1 h2
  apply hmain
  · rw [finditerNode_renderFile L1 hw1, finditerNode_renderFile L1' hw1']
    exact nodeDecls_mem_iff h1
  · rw [finditerEdge_renderFile L1 hw1, finditerEdge_renderFile L1' hw1']
    exact edgeDecls_mem_iff h1
  · rw [finditerNode_renderFile L2 hw2, finditerNode_renderFile L2' hw2']
    exact nodeDecls_mem_iff h2
  · rw [finditerEdge_renderFile L2 hw2, finditerEdge_renderFile L2' hw2']
    exact edgeDecls_mem_iff h2

/-- Structured sample lines used for the order/duplication witnesses. -/
def lineN : DLine := DLine.nodeDecl "a".data "x".data

/-- Structured sample edge line. -/
def lineE : DLine := DLine.edgeDecl "a".data "b".data

/-- Witness for C1: a duplicated node tuple does not change the verdict,
and reordering/duplicating declaration lines does not change the result
of the comparison. -/
theorem claim_C1_witness :
    (Dotdiff.compareGraphs ⟨[("a".data, "x".data)], []⟩
        ⟨[("a".data, "x".data), ("a".data, "x".data)], []⟩).1 = true ∧
    Dotdiff.compare_dot_files (renderFile [lineN, lineE]) (renderFile [lineN]) =
      Dotdiff.compare_dot_files (renderFile [lineE, lineN, lineN]) (renderFile [lineN]) := by
  constructor
  · exact (claim_C1.1 ⟨[("a".data, "x".data)], []⟩
      ⟨[("a".data, "x".data), ("a".data, "x".data)], []⟩).mpr
      ⟨by intro x; constructor <;> (intro h; simp [List.mem_cons] at h ⊢; tauto),
       by intro x; simp⟩
  · exact claim_C1.2.2 [lineN, lineE] [lineE, lineN, lineN] [lineN] [lineN]
      (by decide) (by decide) (by decide) (by decide)
      (by intro d; constructor <;> (intro h; simp [List.mem_cons] at h ⊢; tauto))
      (fun d => Iff.rfl)

/-- C7 counterexample: the claim fails as stated.  For the two-line input
`"a"` / `-> "b"`, swapping the lines changes the extracted graph: in the
original order the edge pattern matches across the newline (`\s*` matches
it), yielding the edge (a,b); in the swapped order nothing matches. -/
theorem claim_C7_counterexample :
    ([(['-', '>', ' ', qc, 'b', qc] : Str), [qc, 'a', qc]].Perm
      [([qc, 'a', qc] : Str), ['-', '>', ' ', qc, 'b', qc]]) ∧
    Dotdiff.parse_dot_file
        (joinLines [[qc, 'a', qc], ['-', '>', ' ', qc, 'b', qc]]) ≠
      Dotdiff.parse_dot_file
        (joinLines [['-', '>', ' ', qc, 'b', qc], [qc, 'a', qc]]) := by
  constructor
  · exact List.Perm.swap _ _ _
  · decide

/-- C7 amended: order independence holds for structured inputs in which no
match can span a line boundary: when every line is a complete node or edge
declaration over plain identifiers/labels, or junk free of quotes and
opening brackets, any permutation of the lines yields the same extracted
canonical graph. -/
theorem claim_C7 (L L' : List DLine) (hw : wfFile L) (hp : L.Perm L') :
    Dotdiff.parse_dot_file (renderFile L') = Dotdiff.parse_dot_file (renderFile L) := by
  have hw' : wfFile L' := fun d hd => hw d (hp.symm.subset hd)
  rw [ddparse_renderFile L hw, ddparse_renderFile L' hw']
  have hmem : ∀ d, d ∈ L' ↔ d ∈ L := fun d => hp.symm.mem_iff
  rw [show Dotdiff.canon (nodeDecls L') = Dotdiff.canon (nodeDecls L) from
    Dotdiff.canon_eq_of_mem_iff (nodeDecls_mem_iff hmem)]
  rw [show Dotdiff.canon (edgeDecls L') = Dotdiff.canon (edgeDecls L) from
    Dotdiff.canon_eq_of_mem_iff (edgeDecls_mem_iff hmem)]

/-- Witness for C7 (amended) on a three-line structured file. -/
theorem claim_C7_witness :
    Dotdiff.parse_dot_file
        (renderFile [lineE, DLine.junk "digraph".data, lineN]) =
      Dotdiff.parse_dot_file
        (renderFile [lineN, lineE, DLine.junk "digraph".data]) := by
  exact claim_C7 [lineN, lineE, DLine.junk "digraph".data]
    [lineE, DLine.junk "digraph".data, lineN] (by decide) (by decide)

namespace Dotdiff

theorem hdrN1_mem_iff (g1 g2 : Graph) :
    "Nodes only in reference file:".data ∈ differencesOf g1 g2 ↔
      onlyIn g1.nodes g2.nodes ≠ [] := by
  unfold differencesOf
  have hh : ("Nodes only in reference file:".data : Str).head? ≠ some ' ' := by decide
  constructor
  · intro hm hemp
    have hcond : (onlyIn g1.nodes g2.nodes).isEmpty = true := by simp [hemp]
    rw [if_pos hcond] at hm
    simp only [List.nil_append] at hm
    rcases List.mem_append.mp hm with hm | hm
    · rcases List.mem_append.mp hm with hm | hm
      · exact not_mem_ite_block (by decide) (not_mem_nodeDiffLines hh '+' _) hm
      · exact not_mem_ite_block (by decide) (not_mem_edgeDiffLines hh '-' _) hm
    · exact not_mem_ite_block (by decide) (not_mem_edgeDiffLines hh '+' _) hm
  · intro hne2
    exact List.mem_append.mpr (Or.inl (List.mem_append.mpr (Or.inl
      (List.mem_append.mpr (Or.inl (mem_own_block hne2))))))

theorem hdrN2_mem_iff (g1 g2 : Graph) :
    "Nodes only in generated file:".data ∈ differencesOf g1 g2 ↔
      onlyIn g2.nodes g1.nodes ≠ [] := by
  unfold differencesOf
  have hh : ("Nodes only in generated file:".data : Str).head? ≠ some ' ' := by decide
  constructor
  · intro hm hemp
    have hcond : (onlyIn g2.nodes g1.nodes).isEmpty = true := by simp [hemp]
    rw [if_pos hcond] at hm
    simp only [List.append_nil] at hm
    rcases List.mem_append.mp hm with hm | hm
    · rcases List.mem_append.mp hm with hm | hm
      · exact not_mem_ite_block (by decide) (not_mem_nodeDiffLines hh '-' _) hm
      · exact not_mem_ite_block (by decide) (not_mem_edgeDiffLines hh '-' _) hm
    · exact not_mem_ite_block (by decide) (not_mem_edgeDiffLines hh '+' _) hm
  · intro hne2
    exact List.mem_append.mpr (Or.inl (List.mem_append.mpr (Or.inl
      (List.mem_append.mpr (Or.inr (mem_own_block hne2))))))

theorem hdrE1_mem_iff (g1 g2 : Graph) :
    "Edges only in reference file:".data ∈ differencesOf g1 g2 ↔
      onlyIn g1.edges g2.edges ≠ [] := by
  unfold differencesOf
  have hh : ("Edges only in reference file:".data : Str).head? ≠ some ' ' := by decide
  constructor
  · intro hm hemp
    have hcond : (onlyIn g1.edges g2.edges).isEmpty = true := by simp [hemp]
    rw [if_pos hcond] at hm
    simp only [List.append_nil] at hm
    rcases List.mem_append.mp hm with hm | hm
    · rcases List.mem_append.mp hm with hm | hm
      · exact not_mem_ite_block (by decide) (not_mem_nodeDiffLines hh '-' _) hm
      · exact not_mem_ite_block (by decide) (not_mem_nodeDiffLines hh '+' _) hm
    · exact not_mem_ite_block (by decide) (not_mem_edgeDiffLines hh '+' _) hm
  · intro hne2
    exact List.mem_append.mpr (Or.inl (List.mem_append.mpr (Or.inr
      (mem_own_block hne2))))

theorem hdrE2_mem_iff (g1 g2 : Graph) :
    "Edges only in generated file:".data ∈ differencesOf g1 g2 ↔
      onlyIn g2.edges g1.edges ≠ [] := by
  unfold differencesOf
  have hh : ("Edges only in generated file:".data : Str).head? ≠ some ' ' := by decide
  constructor
  · intro hm hemp
    have hcond : (onlyIn g2.edges g1.edges).isEmpty = true := by simp [hemp]
    rw [if_pos hcond] at hm
    simp only [List.append_nil] at hm
    rcases List.mem_append.mp hm with hm | hm
    · rcases List.mem_append.mp hm with hm | hm
      · exact not_mem_ite_block (by decide) (not_mem_nodeDiffLines hh '-' _) hm
      · exact not_mem_ite_block (by decide) (not_mem_nodeDiffLines hh '+' _) hm
    · exact not_mem_ite_block (by decide) (not_mem_edgeDiffLines hh '-' _) hm
  · intro hne2
    exact List.mem_append.mpr (Or.inr (mem_own_block hne2))

end Dotdiff

/-- C5: when the graphs are unequal, the report consists of the
"Graphs differ:" line, the total node/edge counts of each graph (the
cardinalities of their canonical sets), a blank line, the "Differences:"
line and the difference section; every difference category lists exactly
the corresponding set difference, sorted (lexicographically by id and
then by the second component) and without duplicates; each category
header appears iff its difference is non-empty; and the whole result is
determined by the node and edge sets of the inputs, hence identical
across runs on set-equal inputs. -/
theorem claim_C5 (g1 g2 : Dotdiff.Graph)
    (hne : (Dotdiff.compareGraphs g1 g2).1 = false) :
    ((Dotdiff.compareGraphs g1 g2).2 =
      "Graphs differ:".data ::
        Dotdiff.countLine "  Reference: ".data g1 ::
        Dotdiff.countLine "  Generated: ".data g2 ::
        ([] : Str) :: "Differences:".data :: Dotdiff.differencesOf g1 g2) ∧
    (∀ a b : List (Str × Str),
      (Dotdiff.onlyIn a b).Sorted Dotdiff.pairLe ∧ (Dotdiff.onlyIn a b).Nodup ∧
      (∀ x, x ∈ Dotdiff.onlyIn a b ↔ x ∈ a ∧ x ∉ b)) ∧
    ("Nodes only in reference file:".data ∈ Dotdiff.differencesOf g1 g2 ↔
      Dotdiff.onlyIn g1.nodes g2.nodes ≠ []) ∧
    ("Nodes only in generated file:".data ∈ Dotdiff.differencesOf g1 g2 ↔
      Dotdiff.onlyIn g2.nodes g1.nodes ≠ []) ∧
    ("Edges only in reference file:".data ∈ Dotdiff.differencesOf g1 g2 ↔
      Dotdiff.onlyIn g1.edges g2.edges ≠ []) ∧
    ("Edges only in generated file:".data ∈ Dotdiff.differencesOf g1 g2 ↔
      Dotdiff.onlyIn g2.edges g1.edges ≠ []) ∧
    (∀ g1' g2' : Dotdiff.Graph,
      (∀ x, x ∈ g1'.nodes ↔ x ∈ g1.nodes) → (∀ x, x ∈ g1'.edges ↔ x ∈ g1.edges) →
      (∀ x, x ∈ g2'.nodes ↔ x ∈ g2.nodes) → (∀ x, x ∈ g2'.edges ↔ x ∈ g2.edges) →
      Dotdiff.compareGraphs g1' g2' = Dotdiff.compareGraphs g1 g2) := by
  have hne' : (Dotdiff.differencesOf g1 g2).isEmpty = false := hne
  refine ⟨?_, ?_, Dotdiff.hdrN1_mem_iff g1 g2, Dotdiff.hdrN2_mem_iff g1 g2,
    Dotdiff.hdrE1_mem_iff g1 g2, Dotdiff.hdrE2_mem_iff g1 g2, ?_⟩
  · show (if (Dotdiff.differencesOf g1 g2).isEmpty then _ else _) = _
    rw [if_neg (by simp [hne']), if_neg (by simp [hne'])]
    rfl
  · intro a b
    exact ⟨Dotdiff.onlyIn_sorted a b, Dotdiff.onlyIn_nodup a b,
      fun x => Dotdiff.mem_onlyIn⟩
  · intro g1' g2' hn1 he1 hn2 he2
    exact Dotdiff.compareGraphs_congr hn1 he1 hn2 he2

/-- Sample graphs for the report witness. -/
def g5a : Dotdiff.Graph := ⟨[("a".data, "x".data)], [("a".data, "b".data)]⟩

/-- Second sample graph for the report witness. -/
def g5b : Dotdiff.Graph := ⟨[], [("a".data, "c".data)]⟩

/-- Witness for C5 on a concrete unequal pair. -/
theorem claim_C5_witness :
    (Dotdiff.compareGraphs g5a g5b).1 = false ∧
    (Dotdiff.compareGraphs g5a g5b).2 =
      "Graphs differ:".data ::
        Dotdiff.countLine "  Reference: ".data g5a ::
        Dotdiff.countLine "  Generated: ".data g5b ::
        ([] : Str) :: "Differences:".data :: Dotdiff.differencesOf g5a g5b ∧
    ("Nodes only in reference file:".data ∈ Dotdiff.differencesOf g5a g5b ↔
      Dotdiff.onlyIn g5a.nodes g5b.nodes ≠ []) :=
  ⟨by decide, (claim_C5 g5a g5b (by decide)).1, (claim_C5 g5a g5b (by decide)).2.2.1⟩

end Cgraph
